import Mathlib

/-!
# Escro score tracker: the state logic of `src/App.jsx`

A shallow embedding of the React component `EscroScoreTracker`.

* The four `useState` cells (`playerName`, `players`, `scores`, `currentRound`) are the
  fields of `State`.
* Every event handler is a function on `State`.  A handler runs against the render that
  displays the current state, so the closure values `players`, `currentRound`,
  `canAddMorePlayers`, `canAddRound` are read from the state the handler starts in, and each
  state updater runs once.
* JavaScript arrays keep their three kinds of index position (`Slot`): an array hole, an
  explicit `undefined`, or a value.  `Array.prototype.map`, `filter` and `reduce` skip holes,
  the spread `[...a]` turns them into `undefined`, and an assignment past the end of an array
  creates them.  A callback that spreads `undefined` or reads a property of `undefined` throws
  a `TypeError`; a handler whose updater throws returns `none`.
* A stored score is a rational number (only finite numbers are ever stored) and the round
  counter is a natural number.  Array indices are natural numbers (below the array-index
  limit `2^32 - 1`).
* The additions of the totals come in two forms.  `totalsWith` takes the operator `+` as a
  parameter, and `doubleAdd` is that operator in IEEE-754 double arithmetic (the exact sum
  rounded to the nearest double, ties to even).  `totals` is the same value when no addition
  rounds (`totalsWith_exactAdd`); it is used where only the order, the equality or the
  membership of the totals matters.
* `Number(value)` is a builtin of the language, not code of the component: `updateScore`
  takes it as a parameter.  `jsNumber` is a model of it used to evaluate examples.
-/

namespace Escro

/-! ## JavaScript arrays -/

/-- One index position of a JavaScript array: a hole of a sparse array (the index is
absent), the value `undefined` stored explicitly, or a proper value. -/
inductive Slot (α : Type) where
  | hole
  | undef
  | val (a : α)
  deriving DecidableEq, Repr

/-- Whether the position is an array hole. -/
def Slot.isHole {α : Type} : Slot α → Bool
  | .hole => true
  | _ => false

/-- The value read at a position: `none` stands for `undefined` (a hole reads as `undefined`
too). -/
def Slot.value? {α : Type} : Slot α → Option α
  | .val a => some a
  | _ => none

/-- A JavaScript array whose proper elements have type `α`. -/
abbrev JSArray (α : Type) := List (Slot α)

/-- The read `a[i]`; `none` stands for `undefined` (index past the end, hole, or a stored
`undefined`). -/
def JSArray.get? {α : Type} (a : JSArray α) (i : Nat) : Option α :=
  match a[i]? with
  | some s => s.value?
  | none => none

/-- The spread `[...a]`: a dense copy, every hole becomes `undefined`. -/
def JSArray.spread {α : Type} (a : JSArray α) : JSArray α :=
  a.map fun s => match s with
    | .hole => .undef
    | s => s

/-- The call `a.map(f)` for a callback that returns an array or throws: holes are skipped and
stay holes, `f` receives `none` for a stored `undefined`, and the first throwing call
(`f _ = none`) aborts the whole `map`. -/
def JSArray.mapThrow {α β : Type} (f : Option α → Option β) : JSArray α → Option (JSArray β)
  | [] => some []
  | .hole :: rest => (JSArray.mapThrow f rest).map (Slot.hole :: ·)
  | s :: rest =>
    match f s.value? with
    | none => none
    | some b => (JSArray.mapThrow f rest).map (Slot.val b :: ·)

/-- The assignment `a[i] = v`: replaces position `i`, or extends the array up to `i`, leaving
holes at the positions in between. -/
def JSArray.assign {α : Type} : JSArray α → Nat → α → JSArray α
  | [], 0, v => [.val v]
  | [], i + 1, v => .hole :: JSArray.assign [] i v
  | _ :: rest, 0, v => .val v :: rest
  | s :: rest, i + 1, v => s :: JSArray.assign rest i v

/-- The elements kept by a callback `(x, i) => keep x i`, the index counted from `start`. -/
def filterWithIndex {α : Type} (keep : α → Nat → Bool) : List α → Nat → List α
  | [], _ => []
  | x :: xs, start =>
    if keep x start then x :: filterWithIndex keep xs (start + 1)
    else filterWithIndex keep xs (start + 1)

/-- The call `a.filter((_, i) => i !== index)` on a JavaScript array: holes are skipped (and
so dropped), every other position is kept unless it is position `index`. -/
def JSArray.filterNe {α : Type} (a : JSArray α) (index : Int) : JSArray α :=
  filterWithIndex (fun s i => !s.isHole && decide ((i : Int) ≠ index)) a 0

/-- The array `Array(n).fill(0)`. -/
def zeros (n : Nat) : JSArray ℚ := List.replicate n (.val 0)

/-- The array of arrays with no hole and no `undefined` that holds the given rows. -/
def dense (rows : List (List ℚ)) : JSArray (JSArray ℚ) :=
  rows.map fun r => .val (r.map .val)

/-! ## Strings and numbers -/

/-- The characters `String.prototype.trim` strips: ECMAScript `WhiteSpace` and
`LineTerminator`. -/
def isWhiteSpace (c : Char) : Bool :=
  let n := c.toNat
  n == 0x09 || n == 0x0A || n == 0x0B || n == 0x0C || n == 0x0D || n == 0x20 || n == 0xA0 ||
  n == 0x1680 || (0x2000 ≤ n && n ≤ 0x200A) || n == 0x2028 || n == 0x2029 || n == 0x202F ||
  n == 0x205F || n == 0x3000 || n == 0xFEFF

/-- The method `String.prototype.trim`. -/
def trim (s : String) : String :=
  String.mk ((s.data.dropWhile isWhiteSpace).reverse.dropWhile isWhiteSpace).reverse

/-- A JavaScript number as `Number(value)` returns it. -/
inductive JSNumber where
  | finite (q : ℚ)
  | nan
  | infinity (negative : Bool)
  deriving DecidableEq, Repr

/-- The test `Number.isFinite(num)`. -/
def JSNumber.isFinite : JSNumber → Bool
  | .finite _ => true
  | _ => false

/-- The expression `Number.isFinite(num) ? num : 0`. -/
def JSNumber.finiteOrZero : JSNumber → ℚ
  | .finite q => q
  | _ => 0

/-- The value of a digit character in the given base (`0-9`, `a-z`, `A-Z`), if it is one. -/
def digitValue? (base : Nat) (c : Char) : Option Nat :=
  let n := c.toNat
  let d := if 48 ≤ n ∧ n ≤ 57 then n - 48
    else if 97 ≤ n ∧ n ≤ 122 then n - 87
    else if 65 ≤ n ∧ n ≤ 90 then n - 55
    else base
  if d < base then some d else none

/-- The value of a string of digits read after the value `acc`; `none` when a character is
not a digit of the base. -/
def readDigits (base : Nat) : List Char → Nat → Option Nat
  | [], acc => some acc
  | c :: cs, acc =>
    match digitValue? base c with
    | some d => readDigits base cs (acc * base + d)
    | none => none

/-- A non-empty string of digits. -/
def readDigits1 (base : Nat) (cs : List Char) : Option Nat :=
  if cs.isEmpty then none else readDigits base cs 0

/-- The text before the first character satisfying `p`, and the text after it when there is
such a character. -/
def splitAtFirst (p : Char → Bool) (cs : List Char) : List Char × Option (List Char) :=
  (cs.takeWhile fun c => !p c,
    match cs.dropWhile fun c => !p c with
    | [] => none
    | _ :: rest => some rest)

/-- The `ExponentPart` after its `e`: an optional sign and at least one decimal digit. -/
def readExponent : List Char → Option Int
  | '+' :: cs => (readDigits1 10 cs).map Int.ofNat
  | '-' :: cs => (readDigits1 10 cs).map fun n => - Int.ofNat n
  | cs => (readDigits1 10 cs).map Int.ofNat

/-- The grammar `StrUnsignedDecimalLiteral` without `Infinity`: `digits`, `digits.`,
`digits.digits`, `.digits`, each with an optional exponent; the mathematical value read. -/
def readUnsignedDecimal (cs : List Char) : Option ℚ :=
  let (mantissa, exponent) := splitAtFirst (fun c => c == 'e' || c == 'E') cs
  let (whole, fraction) := splitAtFirst (fun c => c == '.') mantissa
  let fractionDigits := fraction.getD []
  if whole.isEmpty && fractionDigits.isEmpty then none
  else
    match readDigits 10 whole 0, readDigits 10 fractionDigits 0,
        (match exponent with
          | none => some 0
          | some e => readExponent e) with
    | some w, some f, some e =>
      some (((w : ℚ) + (f : ℚ) / (10 : ℚ) ^ fractionDigits.length) * (10 : ℚ) ^ e)
    | _, _, _ => none

/-- The number a mathematical value becomes: a value whose magnitude reaches
`2^1024 - 2^970` rounds to an infinity.  The rounding of a smaller value to the nearest
double is not modelled. -/
def ofValue (negative : Bool) (q : ℚ) : JSNumber :=
  if (2 : ℚ) ^ 1024 - (2 : ℚ) ^ 970 ≤ q then .infinity negative
  else .finite (if negative then -q else q)

/-- The grammar `StrDecimalLiteral` after its sign. -/
def readDecimal (negative : Bool) (cs : List Char) : JSNumber :=
  if cs = "Infinity".data then .infinity negative
  else
    match readUnsignedDecimal cs with
    | some q => ofValue negative q
    | none => .nan

/-- A model of the builtin conversion `Number(value)` of a string (ECMAScript
`StringToNumber`): white space is trimmed, the empty string is `0`, then a binary, octal or
hexadecimal integer literal or a signed decimal literal is read; anything else is `NaN`. -/
def jsNumber (value : String) : JSNumber :=
  match (trim value).data with
  | [] => .finite 0
  | '0' :: 'x' :: cs | '0' :: 'X' :: cs =>
    match readDigits1 16 cs with
    | some n => ofValue false n
    | none => .nan
  | '0' :: 'o' :: cs | '0' :: 'O' :: cs =>
    match readDigits1 8 cs with
    | some n => ofValue false n
    | none => .nan
  | '0' :: 'b' :: cs | '0' :: 'B' :: cs =>
    match readDigits1 2 cs with
    | some n => ofValue false n
    | none => .nan
  | '+' :: cs => readDecimal false cs
  | '-' :: cs => readDecimal true cs
  | cs => readDecimal false cs

/-! ## The component state and its handlers -/

/-- The four `useState` cells of `EscroScoreTracker`. -/
structure State where
  playerName : String
  players : List String
  scores : JSArray (JSArray ℚ)
  currentRound : Nat
  deriving DecidableEq, Repr

/-- The initial values passed to `useState`. -/
def State.initial : State :=
  { playerName := "", players := [], scores := [], currentRound := 1 }

/-- The helper `canAddMorePlayers`. -/
def canAddMorePlayers (s : State) : Bool := decide (s.players.length < 4)

/-- The helper `canAddRound`. -/
def canAddRound (s : State) : Bool := decide (s.players.length > 0)

/-- The `onChange` handler of the name input: `setPlayerName(e.target.value)`. -/
def setPlayerName (s : State) (value : String) : State :=
  { s with playerName := value }

/-- The handler `handleAddPlayer`.  The `scores` updater spreads every row, which throws on a
stored `undefined`. -/
def handleAddPlayer (s : State) : Option State :=
  let name := trim s.playerName
  if name = "" || !canAddMorePlayers s then some s
  else
    match s.scores.mapThrow (fun r => r.map fun row => row.spread ++ [.val 0]) with
    | none => none
    | some scores =>
      some { playerName := "", players := s.players ++ [name], scores := scores,
             currentRound := s.currentRound }

/-- The handler `handleRemovePlayer`.  The `scores` updater calls `row.filter`, which throws
on a stored `undefined`. -/
def handleRemovePlayer (s : State) (index : Int) : Option State :=
  match s.scores.mapThrow (fun r => r.map fun row => row.filterNe index) with
  | none => none
  | some scores =>
    some { s with
      players := filterWithIndex (fun _ i => decide ((i : Int) ≠ index)) s.players 0,
      scores := scores }

/-- The handler `handleAddRound`. -/
def handleAddRound (s : State) : State :=
  if !canAddRound s then s
  else
    { s with
      scores := s.scores.spread ++ [.val (zeros s.players.length)],
      currentRound := s.currentRound + 1 }

/-- The handler `handleReset`. -/
def handleReset (_s : State) : State :=
  { playerName := "", players := [], scores := [], currentRound := 1 }

/-- The array `Array.from(\x7b length: currentRound \x7d, () => Array(players.length).fill(0))`
of placeholder rows. -/
def placeholderRows (s : State) : JSArray (JSArray ℚ) :=
  List.replicate s.currentRound (.val (zeros s.players.length))

/-- The handler `updateScore`, with the builtin `Number` as a parameter.  The copy
`rows.map((row) => [...row])` throws on a stored `undefined`. -/
def updateScore (Number : String → JSNumber) (s : State) (roundIdx playerIdx : Nat)
    (value : String) : Option State :=
  let num := Number value
  let rows := if s.scores.length ≠ 0 then s.scores else placeholderRows s
  match rows.mapThrow (fun r => r.map fun row => row.spread) with
  | none => none
  | some next =>
    let row := match next.get? roundIdx with
      | some row => row
      | none => zeros s.players.length
    some { s with scores := next.assign roundIdx (row.assign playerIdx num.finiteOrZero) }

/-- The render value `rowsToRender`. -/
def rowsToRender (s : State) : JSArray (JSArray ℚ) :=
  if s.scores.length ≠ 0 then s.scores else placeholderRows s

/-! ## The operations of the score table and its reachable states -/

/-- The operation AddPlayer(name): the name is typed into the input (`setPlayerName`), then
submitted (`handleAddPlayer`). -/
def AddPlayer (s : State) (name : String) : Option State :=
  handleAddPlayer (setPlayerName s name)

/-- One user action on the component. -/
inductive Action where
  | addPlayer (name : String)
  | removePlayer (index : Int)
  | addRound
  | reset
  | updateScore (roundIdx playerIdx : Nat) (value : String)
  deriving DecidableEq, Repr

/-- The state after one action; `none` when an updater throws. -/
def step (Number : String → JSNumber) (s : State) : Action → Option State
  | .addPlayer name => AddPlayer s name
  | .removePlayer index => handleRemovePlayer s index
  | .addRound => some (handleAddRound s)
  | .reset => some (handleReset s)
  | .updateScore roundIdx playerIdx value => updateScore Number s roundIdx playerIdx value

/-- An action is inside the rendered grid: an `updateScore` addresses one of the rendered
inputs, `roundIdx` below the number of rendered rows and `playerIdx` below the number of
players.  Every other action is always available. -/
def InGrid (s : State) : Action → Prop
  | .updateScore roundIdx playerIdx _ =>
    roundIdx < (rowsToRender s).length ∧ playerIdx < s.players.length
  | _ => True

/-- Any action at all, `updateScore` with arbitrary indices included. -/
def AnyCall (_s : State) (_a : Action) : Prop := True

/-- The states reached from the initial state by actions that satisfy `allowed`. -/
inductive Reachable (Number : String → JSNumber) (allowed : State → Action → Prop) :
    State → Prop where
  | initial : Reachable Number allowed State.initial
  | next {s s' : State} (a : Action) :
    Reachable Number allowed s → allowed s a → step Number s a = some s' →
    Reachable Number allowed s'

/-- The row-width invariant: `scores` is an array of rows of numbers (no hole, no
`undefined`) and every row has exactly `players.length` cells. -/
def RowWidth (s : State) : Prop :=
  ∃ rows : List (List ℚ), s.scores = dense rows ∧ ∀ r ∈ rows, r.length = s.players.length

/-- The cell `scores[roundIdx][playerIdx]`; `none` stands for `undefined`. -/
def State.cell (s : State) (roundIdx playerIdx : Nat) : Option ℚ :=
  (s.scores.get? roundIdx).bind fun row => row.get? playerIdx

/-- The rendered rows of a state whose `scores` holds the plain rows `rows`: the stored rows,
or the placeholder rows when there are none (`rowsToRender` on plain lists). -/
def shownRows (rows : List (List ℚ)) (players : List String) (currentRound : Nat) :
    List (List ℚ) :=
  if rows.length ≠ 0 then rows else List.replicate currentRound (List.replicate players.length 0)

/-- The plain rows after the cell `[roundIdx][playerIdx]` is replaced by `v`. -/
def writeCell (rows : List (List ℚ)) (roundIdx playerIdx : Nat) (v : ℚ) : List (List ℚ) :=
  rows.set roundIdx ((rows.getD roundIdx []).set playerIdx v)

/-- The cell `[i][j]` of plain rows, when there is one. -/
def cellOf (rows : List (List ℚ)) (i j : Nat) : Option ℚ :=
  rows[i]?.bind fun row => row[j]?

/-! ## The values computed for the render -/

/-- The call `a.reduce(f, init)`: holes are skipped, `f` receives `none` for a stored
`undefined`. -/
def JSArray.reduce {α β : Type} (f : β → Option α → β) (init : β) : JSArray α → β
  | [] => init
  | .hole :: rest => JSArray.reduce f init rest
  | s :: rest => JSArray.reduce f (f init s.value?) rest

/-- The operand `round?.[pIdx] || 0`: the cell of the round at `pIdx`, or 0 when the round or
the cell is `undefined` (`q || 0` is `q` for every finite number `q`, since `0 || 0` is 0). -/
def cellOrZero (round : Option (JSArray ℚ)) (pIdx : Nat) : ℚ :=
  (round.bind fun row => row.get? pIdx).getD 0

/-- The call `l.map((x, i) => f x i)` on a list without holes, the index counted from
`start`. -/
def mapWithIndex {α β : Type} (f : α → Nat → β) : List α → Nat → List β
  | [], _ => []
  | x :: xs, start => f x start :: mapWithIndex f xs (start + 1)

/-- The render value `totals` when no addition rounds: every `+` is the exact sum
(`totalsWith` has the operator `+` as a parameter). -/
def totals (s : State) : List ℚ :=
  mapWithIndex
    (fun _ pIdx => (rowsToRender s).reduce (fun sum round => sum + cellOrZero round pIdx) 0)
    s.players 0

/-- The render value `maxScore`: `Math.max(...totals)`, or 0 when `totals` is empty. -/
def maxScore (s : State) : ℚ :=
  match totals s with
  | [] => 0
  | t :: ts => ts.foldl max t

/-- The render value `minScore`: `Math.min(...totals)`, or 0 when `totals` is empty. -/
def minScore (s : State) : ℚ :=
  match totals s with
  | [] => 0
  | t :: ts => ts.foldl min t

/-- The colour class in the `className` of the cell that shows the total `t`. -/
def totalClass (s : State) (t : ℚ) : String :=
  if s.players.length > 0 then
    if t = maxScore s then "text-red-500"
    else if t = minScore s then "text-green-600"
    else "text-gray-700"
  else "text-gray-700"

/-! ## The totals in the words of the specification -/

/-- The value a rendered row contributes to the column `p`: its cell at `p`, and 0 when the
row or the cell is missing. -/
def specCell (round : Slot (JSArray ℚ)) (p : Nat) : ℚ :=
  match round with
  | .val row =>
    match row[p]? with
    | some (.val q) => q
    | _ => 0
  | _ => 0

/-- The sum over all rendered rows of `row[p]`, a missing cell counting as 0. -/
def columnSum (s : State) (p : Nat) : ℚ :=
  ((rowsToRender s).map fun round => specCell round p).sum

/-- The totals as the specification words them: one entry for each player index, the sum of
that column over the rendered rows. -/
def specTotals (s : State) : List ℚ :=
  (List.range s.players.length).map fun p => columnSum s p

/-- The sum of the column `p` of plain rows, a missing cell counting as 0. -/
def plainColumnSum (rows : List (List ℚ)) (p : Nat) : ℚ :=
  (rows.map fun r => r.getD p 0).sum

/-! ## The totals in double-precision arithmetic -/

/-- The integer nearest to `x`, a tie going to the even one. -/
def roundHalfEven (x : ℚ) : Int :=
  if x - ⌊x⌋ < 1 / 2 then ⌊x⌋
  else if 1 / 2 < x - ⌊x⌋ then ⌊x⌋ + 1
  else if ⌊x⌋ % 2 = 0 then ⌊x⌋
  else ⌊x⌋ + 1

/-- The IEEE-754 double nearest to the mathematical value `q` (round to nearest, ties to
even): a multiple `m * 2 ^ e` of the spacing `2 ^ e` of the doubles around `q`, where
`e >= -1074` and `|m| <= 2 ^ 53`; a result of magnitude `2 ^ 1024` is an infinity.  The sign
of a zero is not kept. -/
def roundDouble (q : ℚ) : JSNumber :=
  if q = 0 then .finite 0
  else
    let e : Int := max (Int.log 2 |q| - 52) (-1074)
    let m : Int := roundHalfEven (q / (2 : ℚ) ^ e)
    if (2 : ℚ) ^ (1024 : Int) ≤ |(m : ℚ)| * (2 : ℚ) ^ e then .infinity (decide (q < 0))
    else .finite ((m : ℚ) * (2 : ℚ) ^ e)

/-- The operator `+` on two numbers in IEEE-754 double arithmetic: the exact sum of two
finite numbers rounded to the nearest double. -/
def doubleAdd : JSNumber → JSNumber → JSNumber
  | .finite a, .finite b => roundDouble (a + b)
  | .nan, _ => .nan
  | _, .nan => .nan
  | .infinity negative, .finite _ => .infinity negative
  | .finite _, .infinity negative => .infinity negative
  | .infinity negative, .infinity negative' =>
    if negative = negative' then .infinity negative else .nan

/-- The render value `totals` with the operator `+` of the language as the parameter `add`
(`doubleAdd` is the arithmetic of the language; `totals` is this value for an exact `+`). -/
def totalsWith (add : JSNumber → JSNumber → JSNumber) (s : State) : List JSNumber :=
  mapWithIndex
    (fun _ pIdx =>
      (rowsToRender s).reduce (fun sum round => add sum (.finite (cellOrZero round pIdx)))
        (.finite 0))
    s.players 0

/-- The rendered rows that exist: the positions of `rowsToRender` that are not holes. -/
def renderedRows (s : State) : List (Slot (JSArray ℚ)) :=
  (rowsToRender s).filter fun round => !round.isHole

/-- The sum of the column `p` over the rendered rows, taken from the first row to the last
with the addition `add`, a missing cell counting as 0. -/
def columnSumWith (add : JSNumber → JSNumber → JSNumber) (s : State) (p : Nat) : JSNumber :=
  (renderedRows s).foldl (fun sum round => add sum (.finite (specCell round p))) (.finite 0)

/-- The cells of the column `p` of plain rows, from the first row to the last, a missing
cell counting as 0. -/
def columnCells (rows : List (List ℚ)) (p : Nat) : List ℚ :=
  rows.map fun r => r.getD p 0

/-- No addition rounds when the cells are summed from first to last: adding the next cell
to the exact sum of the cells before it gives their exact sum. -/
def ExactAlong (add : JSNumber → JSNumber → JSNumber) (cells : List ℚ) : Prop :=
  ∀ k, k < cells.length →
    add (.finite (cells.take k).sum) (.finite (cells.getD k 0))
      = .finite ((cells.take k).sum + cells.getD k 0)

/-- Every running sum of the cells is an integer of magnitude at most `2 ^ 53`. -/
def IntegerSums (cells : List ℚ) : Prop :=
  ∀ k, k ≤ cells.length → ∃ z : Int, (cells.take k).sum = z ∧ |z| ≤ 2 ^ 53

/-- An addition that never rounds. -/
def exactAdd : JSNumber → JSNumber → JSNumber
  | .finite a, .finite b => .finite (a + b)
  | .nan, _ => .nan
  | _, .nan => .nan
  | .infinity negative, .finite _ => .infinity negative
  | .finite _, .infinity negative => .infinity negative
  | .infinity negative, .infinity negative' =>
    if negative = negative' then .infinity negative else .nan

/-! ## Integer scores -/

/-- Every cell that `scores` holds is an integer. -/
def IntegerCells (s : State) : Prop :=
  ∀ (roundIdx playerIdx : Nat) (q : ℚ), s.cell roundIdx playerIdx = some q → ∃ z : Int, q = z

/-- An action inside the rendered grid whose raw text, for an `updateScore`, parses to an
integer or to no finite number. -/
def InGridInteger (Number : String → JSNumber) (s : State) : Action → Prop
  | .updateScore roundIdx playerIdx value =>
    (roundIdx < (rowsToRender s).length ∧ playerIdx < s.players.length) ∧
      ∀ q, Number value = .finite q → ∃ z : Int, q = z
  | _ => True

/-- The row-width invariant together with a property `P` of every stored cell. -/
def CellsSatisfy (P : ℚ → Prop) (s : State) : Prop :=
  ∃ rows : List (List ℚ), s.scores = dense rows ∧
    (∀ r ∈ rows, r.length = s.players.length) ∧ ∀ r ∈ rows, ∀ q ∈ r, P q

/-! ## Arrays without holes -/

section DenseArrays

variable {α β : Type}

theorem mapThrow_val (f : Option α → Option β) (g : α → β)
    (hf : ∀ x, f (some x) = some (g x)) (l : List α) :
    JSArray.mapThrow f (l.map Slot.val) = some (l.map fun x => Slot.val (g x)) := by
  induction l with
  | nil => rfl
  | cons x xs ih => simp [JSArray.mapThrow, Slot.value?, hf, ih]

theorem spread_val (l : List α) : JSArray.spread (l.map Slot.val) = l.map Slot.val := by
  induction l with
  | nil => rfl
  | cons x xs ih =>
    simp only [JSArray.spread, List.map_cons, List.map_map] at ih ⊢
    rw [ih]

theorem get?_val (l : List α) (i : Nat) : JSArray.get? (l.map Slot.val) i = l[i]? := by
  unfold JSArray.get?
  rw [List.getElem?_map]
  cases l[i]? <;> rfl

theorem assign_val (l : List α) (i : Nat) (v : α) (h : i < l.length) :
    JSArray.assign (l.map Slot.val) i v = (l.set i v).map Slot.val := by
  induction l generalizing i with
  | nil => simp at h
  | cons x xs ih =>
    cases i with
    | zero => simp [JSArray.assign]
    | succ i =>
      simp only [List.length_cons, Nat.add_lt_add_iff_right] at h
      simp [JSArray.assign, ih i h]

theorem filterWithIndex_val (index : Int) (l : List α) (start : Nat) :
    filterWithIndex (fun (s : Slot α) i => !s.isHole && decide ((i : Int) ≠ index))
        (l.map Slot.val) start
      = (filterWithIndex (fun (_ : α) i => decide ((i : Int) ≠ index)) l start).map Slot.val := by
  induction l generalizing start with
  | nil => rfl
  | cons x xs ih =>
    have hx : (Slot.val x).isHole = false := rfl
    simp only [List.map_cons, filterWithIndex, hx, Bool.not_false, Bool.true_and]
    split
    · rw [ih, List.map_cons]
    · exact ih _

theorem filterWithIndex_outside (index : Int) (l : List α) (start : Nat)
    (h : index < start ∨ (start : Int) + l.length ≤ index) :
    filterWithIndex (fun (_ : α) i => decide ((i : Int) ≠ index)) l start = l := by
  induction l generalizing start with
  | nil => rfl
  | cons x xs ih =>
    have hne : (start : Int) ≠ index := by
      rcases h with h | h
      · omega
      · simp only [List.length_cons] at h; omega
    have hrest : index < ((start + 1 : Nat) : Int) ∨
        ((start + 1 : Nat) : Int) + xs.length ≤ index := by
      rcases h with h | h
      · left; omega
      · right; simp only [List.length_cons] at h; omega
    have hkeep : decide ((start : Int) ≠ index) = true := decide_eq_true hne
    simp only [filterWithIndex, hkeep, if_true]
    rw [ih (start + 1) hrest]

theorem filterWithIndex_eraseIdx (l : List α) (start k : Nat) :
    filterWithIndex (fun (_ : α) i => decide ((i : Int) ≠ ((start + k : Nat) : Int))) l start
      = l.eraseIdx k := by
  induction l generalizing start k with
  | nil => rfl
  | cons x xs ih =>
    cases k with
    | zero =>
      have hrest : (((start + 0 : Nat) : Int)) < ((start + 1 : Nat) : Int) ∨
          ((start + 1 : Nat) : Int) + xs.length ≤ ((start + 0 : Nat) : Int) := by
        left; omega
      have hdrop : decide ((start : Int) ≠ ((start + 0 : Nat) : Int)) = false :=
        decide_eq_false (by simp)
      simp only [filterWithIndex, hdrop, Bool.false_eq_true, if_false, List.eraseIdx_cons_zero]
      exact filterWithIndex_outside _ xs (start + 1) hrest
    | succ k =>
      have hkeep : decide ((start : Int) ≠ ((start + (k + 1) : Nat) : Int)) = true :=
        decide_eq_true (by omega)
      have hidx : start + (k + 1) = (start + 1) + k := by omega
      simp only [filterWithIndex, hkeep, if_true, List.eraseIdx_cons_succ]
      rw [hidx, ih (start + 1) k]

theorem dense_eq (rows : List (List ℚ)) :
    dense rows = (rows.map fun r => r.map Slot.val).map Slot.val := by
  simp [dense, List.map_map, Function.comp_def]

theorem length_dense (rows : List (List ℚ)) : (dense rows).length = rows.length := by
  simp [dense]

theorem dense_injective {rows rows' : List (List ℚ)} (h : dense rows = dense rows') :
    rows = rows' := by
  have hval : Function.Injective (Slot.val : ℚ → Slot ℚ) := fun a b hab => by
    injection hab
  have hrow : Function.Injective fun r : List ℚ => Slot.val (r.map Slot.val) := by
    intro a b hab
    simp only [Slot.val.injEq] at hab
    exact List.map_injective_iff.mpr hval hab
  exact List.map_injective_iff.mpr hrow h

end DenseArrays

/-! ## The handlers on states whose `scores` has no hole -/

theorem mapThrow_dense (g : JSArray ℚ → JSArray ℚ) (g' : List ℚ → List ℚ)
    (hg : ∀ r : List ℚ, g (r.map Slot.val) = (g' r).map Slot.val) (rows : List (List ℚ)) :
    JSArray.mapThrow (fun r => r.map g) (dense rows) = some (dense (rows.map g')) := by
  rw [dense_eq, mapThrow_val _ g (fun _ => rfl)]
  simp [dense, List.map_map, Function.comp_def, hg]

theorem handleAddPlayer_reject (s : State)
    (h : trim s.playerName = "" ∨ 4 ≤ s.players.length) : handleAddPlayer s = some s := by
  unfold handleAddPlayer
  rcases h with h | h
  · simp [h]
  · have hcap : canAddMorePlayers s = false := by
      simp only [canAddMorePlayers, decide_eq_false_iff_not]; omega
    simp [hcap]

theorem handleAddPlayer_dense (playerName : String) (players : List String)
    (rows : List (List ℚ)) (currentRound : Nat)
    (hname : trim playerName ≠ "") (hlen : players.length < 4) :
    handleAddPlayer ⟨playerName, players, dense rows, currentRound⟩
      = some ⟨"", players ++ [trim playerName], dense (rows.map fun r => r ++ [0]),
          currentRound⟩ := by
  have hmap := mapThrow_dense (fun row => row.spread ++ [Slot.val 0]) (fun r => r ++ [0])
    (fun r => by simp [spread_val]) rows
  simp only [handleAddPlayer, canAddMorePlayers, hname, hlen, decide_True, decide_False,
    Bool.not_true, Bool.or_self, Bool.false_eq_true, if_false, hmap]

theorem handleRemovePlayer_dense (playerName : String) (players : List String)
    (rows : List (List ℚ)) (currentRound : Nat) (i : Nat) :
    handleRemovePlayer ⟨playerName, players, dense rows, currentRound⟩ (i : Int)
      = some ⟨playerName, players.eraseIdx i, dense (rows.map fun r => r.eraseIdx i),
          currentRound⟩ := by
  have hrow : ∀ r : List ℚ, JSArray.filterNe (r.map Slot.val) (i : Int)
      = (r.eraseIdx i).map Slot.val := by
    intro r
    have h := filterWithIndex_eraseIdx r 0 i
    rw [Nat.zero_add] at h
    rw [JSArray.filterNe, filterWithIndex_val, h]
  have hmap := mapThrow_dense (fun row => row.filterNe (i : Int)) (fun r => r.eraseIdx i)
    hrow rows
  have hplayers := filterWithIndex_eraseIdx players 0 i
  rw [Nat.zero_add] at hplayers
  simp only [handleRemovePlayer, hmap, hplayers]

theorem handleRemovePlayer_outside (playerName : String) (players : List String)
    (rows : List (List ℚ)) (currentRound : Nat) (index : Int)
    (hwidth : ∀ r ∈ rows, r.length = players.length)
    (hout : index < 0 ∨ (players.length : Int) ≤ index) :
    handleRemovePlayer ⟨playerName, players, dense rows, currentRound⟩ index
      = some ⟨playerName, players, dense rows, currentRound⟩ := by
  have hfilter : ∀ l : List ℚ, l.length = players.length →
      filterWithIndex (fun (_ : ℚ) i => decide ((i : Int) ≠ index)) l 0 = l := by
    intro l hl
    apply filterWithIndex_outside
    rcases hout with h | h
    · left; simpa using h
    · right; rw [hl]; simpa using h
  have hplayers : filterWithIndex (fun (_ : String) i => decide ((i : Int) ≠ index)) players 0
      = players := by
    apply filterWithIndex_outside
    rcases hout with h | h
    · left; simpa using h
    · right; simpa using h
  have hmap : JSArray.mapThrow (fun r => r.map fun row => JSArray.filterNe row index)
      (dense rows) = some (dense rows) := by
    rw [dense_eq, mapThrow_val _ (fun row => JSArray.filterNe row index) (fun _ => rfl)]
    congr 1
    rw [List.map_map, List.map_map]
    apply List.map_congr_left
    intro r hr
    simp only [Function.comp_apply, JSArray.filterNe, filterWithIndex_val,
      hfilter r (hwidth r hr)]
  simp only [handleRemovePlayer, hmap, hplayers]

theorem handleAddRound_noPlayers (s : State) (h : s.players = []) : handleAddRound s = s := by
  simp [handleAddRound, canAddRound, h]

theorem handleAddRound_dense (playerName : String) (players : List String)
    (rows : List (List ℚ)) (currentRound : Nat) (h : players ≠ []) :
    handleAddRound ⟨playerName, players, dense rows, currentRound⟩
      = ⟨playerName, players, dense (rows ++ [List.replicate players.length 0]),
          currentRound + 1⟩ := by
  have hpos : 0 < players.length := List.length_pos.mpr h
  have hspread : JSArray.spread (dense rows) = dense rows := by
    rw [dense_eq, spread_val]
  have hrow : [Slot.val (zeros players.length)] = dense [List.replicate players.length 0] := by
    simp [dense, zeros]
  have hcan : canAddRound ⟨playerName, players, dense rows, currentRound⟩ = true := by
    simp [canAddRound, hpos]
  simp only [handleAddRound, hcan, Bool.not_true, Bool.false_eq_true, if_false, hspread, hrow]
  simp [dense]

theorem get?_assign_nil {α : Type} (i : Nat) (v : α) :
    JSArray.get? (JSArray.assign [] i v) i = some v := by
  induction i with
  | zero => rfl
  | succ i ih => simpa [JSArray.assign, JSArray.get?] using ih

theorem get?_assign_self {α : Type} (a : JSArray α) (i : Nat) (v : α) :
    JSArray.get? (JSArray.assign a i v) i = some v := by
  induction a generalizing i with
  | nil => exact get?_assign_nil i v
  | cons x xs ih =>
    cases i with
    | zero => simp [JSArray.assign, JSArray.get?, Slot.value?]
    | succ i => simpa [JSArray.assign, JSArray.get?] using ih i

theorem placeholderRows_dense (s : State) :
    placeholderRows s
      = dense (List.replicate s.currentRound (List.replicate s.players.length 0)) := by
  simp [placeholderRows, dense, zeros]

theorem rowsToRender_dense (playerName : String) (players : List String)
    (rows : List (List ℚ)) (currentRound : Nat) :
    rowsToRender ⟨playerName, players, dense rows, currentRound⟩
      = dense (shownRows rows players currentRound) := by
  unfold rowsToRender shownRows
  rw [placeholderRows_dense]
  simp only [length_dense]
  split <;> rfl

theorem updateScore_dense (Number : String → JSNumber) (playerName : String)
    (players : List String) (rows : List (List ℚ)) (currentRound : Nat)
    (roundIdx playerIdx : Nat) (value : String) :
    updateScore Number ⟨playerName, players, dense rows, currentRound⟩ roundIdx playerIdx value
      = some ⟨playerName, players,
          JSArray.assign (dense (shownRows rows players currentRound)) roundIdx
            (JSArray.assign
              (match JSArray.get? (dense (shownRows rows players currentRound)) roundIdx with
                | some row => row
                | none => zeros players.length)
              playerIdx (Number value).finiteOrZero),
          currentRound⟩ := by
  have hrows := rowsToRender_dense playerName players rows currentRound
  unfold rowsToRender at hrows
  have hmap := mapThrow_dense (fun row => row.spread) (fun r => r)
    (fun r => spread_val r) (shownRows rows players currentRound)
  rw [List.map_id'] at hmap
  simp only [updateScore, hrows, hmap]

theorem updateScore_dense_inside (Number : String → JSNumber) (playerName : String)
    (players : List String) (rows : List (List ℚ)) (currentRound : Nat)
    (roundIdx playerIdx : Nat) (value : String)
    (hr : roundIdx < (shownRows rows players currentRound).length)
    (hp : playerIdx < ((shownRows rows players currentRound).getD roundIdx []).length) :
    updateScore Number ⟨playerName, players, dense rows, currentRound⟩ roundIdx playerIdx value
      = some ⟨playerName, players,
          dense (writeCell (shownRows rows players currentRound) roundIdx playerIdx
            (Number value).finiteOrZero),
          currentRound⟩ := by
  rw [updateScore_dense]
  generalize shownRows rows players currentRound = shown at hr hp
  have hget : JSArray.get? (dense shown) roundIdx
      = some ((shown.getD roundIdx []).map Slot.val) := by
    rw [dense_eq, get?_val, List.getElem?_map, List.getD_eq_getElem?_getD,
      List.getElem?_eq_getElem hr]
    rfl
  simp only [hget]
  rw [assign_val _ _ _ hp]
  have hr' : roundIdx < (shown.map fun r => r.map Slot.val).length := by simpa using hr
  rw [dense_eq, assign_val _ _ _ hr', ← List.map_set, ← dense_eq]
  rfl

/-! ## Preservation of the row width -/

theorem shownRows_width (rows : List (List ℚ)) (players : List String) (currentRound : Nat)
    (hwidth : ∀ r ∈ rows, r.length = players.length) :
    ∀ r ∈ shownRows rows players currentRound, r.length = players.length := by
  intro r hr
  unfold shownRows at hr
  split at hr
  · exact hwidth r hr
  · rw [List.eq_of_mem_replicate hr, List.length_replicate]

theorem writeCell_width (rows : List (List ℚ)) (roundIdx playerIdx n : Nat) (v : ℚ)
    (hwidth : ∀ r ∈ rows, r.length = n) :
    ∀ r ∈ writeCell rows roundIdx playerIdx v, r.length = n := by
  intro r hr
  rcases List.mem_or_eq_of_mem_set hr with h | h
  · exact hwidth r h
  · rw [h, List.length_set, List.getD_eq_getElem?_getD]
    cases hget : rows[roundIdx]? with
    | none =>
      have hlt : ¬ roundIdx < rows.length := fun hlt => by
        rw [List.getElem?_eq_getElem hlt] at hget; cases hget
      simp only [writeCell] at hr
      rw [List.set_eq_of_length_le (Nat.le_of_not_lt hlt)] at hr
      have hlen := hwidth r hr
      rw [h, List.length_set, List.getD_eq_getElem?_getD, hget] at hlen
      exact hlen
    | some row => exact hwidth row (List.getElem?_mem hget)

theorem eraseIdx_width (rows : List (List ℚ)) (players : List String) (i : Nat)
    (hwidth : ∀ r ∈ rows, r.length = players.length) :
    ∀ r ∈ rows.map (fun r => r.eraseIdx i), r.length = (players.eraseIdx i).length := by
  intro r hr
  obtain ⟨r0, hr0, rfl⟩ := List.mem_map.mp hr
  rw [List.length_eraseIdx, List.length_eraseIdx, hwidth r0 hr0]

theorem step_rowWidth (Number : String → JSNumber) (s : State) (a : Action)
    (hw : RowWidth s) (ha : InGrid s a) :
    ∃ s', step Number s a = some s' ∧ RowWidth s' := by
  obtain ⟨playerName, players, scores, currentRound⟩ := s
  obtain ⟨rows, hs, hwidth⟩ := hw
  simp only at hs hwidth
  subst hs
  cases a with
  | addPlayer name =>
    by_cases h : trim name = "" ∨ 4 ≤ players.length
    · exact ⟨_, handleAddPlayer_reject _ h, rows, rfl, hwidth⟩
    · have hname : trim name ≠ "" := fun hn => h (Or.inl hn)
      have hlen : players.length < 4 := by
        rcases Nat.lt_or_ge players.length 4 with hl | hl
        · exact hl
        · exact absurd (Or.inr hl) h
      refine ⟨_, handleAddPlayer_dense name players rows currentRound hname hlen, _, rfl, ?_⟩
      intro r hr
      obtain ⟨r0, hr0, rfl⟩ := List.mem_map.mp hr
      simp [hwidth r0 hr0]
  | removePlayer index =>
    cases index with
    | ofNat i =>
      exact ⟨_, handleRemovePlayer_dense playerName players rows currentRound i, _, rfl,
        eraseIdx_width rows players i hwidth⟩
    | negSucc i =>
      exact ⟨_, handleRemovePlayer_outside playerName players rows currentRound _ hwidth
        (Or.inl (Int.negSucc_lt_zero i)), rows, rfl, hwidth⟩
  | addRound =>
    by_cases h : players = []
    · refine ⟨_, rfl, ?_⟩
      rw [handleAddRound_noPlayers _ h]
      exact ⟨rows, rfl, hwidth⟩
    · refine ⟨_, rfl, ?_⟩
      rw [handleAddRound_dense playerName players rows currentRound h]
      refine ⟨_, rfl, ?_⟩
      intro r hr
      rcases List.mem_append.mp hr with hr | hr
      · exact hwidth r hr
      · rw [List.mem_singleton.mp hr, List.length_replicate]
  | reset =>
    refine ⟨_, rfl, [], rfl, ?_⟩
    intro r hr
    cases hr
  | updateScore roundIdx playerIdx value =>
    obtain ⟨hr, hp⟩ := ha
    rw [rowsToRender_dense, length_dense] at hr
    simp only at hp
    have hshown := shownRows_width rows players currentRound hwidth
    have hrow : ((shownRows rows players currentRound).getD roundIdx []).length
        = players.length := by
      rw [List.getD_eq_getElem?_getD, List.getElem?_eq_getElem hr]
      exact hshown _ (List.getElem_mem hr)
    refine ⟨_, updateScore_dense_inside Number playerName players rows currentRound roundIdx
      playerIdx value hr (by rw [hrow]; exact hp), _, rfl, ?_⟩
    exact writeCell_width _ _ _ _ _ hshown

/-! ## Writing one cell of plain rows -/

theorem length_writeCell (rows : List (List ℚ)) (roundIdx playerIdx : Nat) (v : ℚ) :
    (writeCell rows roundIdx playerIdx v).length = rows.length := by
  simp [writeCell]

theorem cellOf_writeCell (rows : List (List ℚ)) (roundIdx playerIdx : Nat) (v : ℚ)
    (hr : roundIdx < rows.length) (hp : playerIdx < (rows.getD roundIdx []).length)
    (i j : Nat) :
    cellOf (writeCell rows roundIdx playerIdx v) i j
      = if i = roundIdx ∧ j = playerIdx then some v else cellOf rows i j := by
  unfold cellOf writeCell
  rw [List.getElem?_set]
  by_cases hi : roundIdx = i
  · subst hi
    rw [if_pos rfl, if_pos hr, Option.some_bind, List.getElem?_set]
    have hrow : rows[roundIdx]? = some (rows.getD roundIdx []) := by
      rw [List.getD_eq_getElem?_getD, List.getElem?_eq_getElem hr]
      rfl
    by_cases hj : playerIdx = j
    · subst hj
      rw [if_pos rfl, if_pos hp, if_pos ⟨rfl, rfl⟩]
    · rw [if_neg hj, if_neg (fun h => hj h.2.symm), hrow, Option.some_bind]
  · rw [if_neg hi, if_neg (fun h => hi h.1.symm)]

/-! ## What each handler does to `players` -/

theorem filterWithIndex_length_le {α : Type} (keep : α → Nat → Bool) (l : List α)
    (start : Nat) : (filterWithIndex keep l start).length ≤ l.length := by
  induction l generalizing start with
  | nil => exact Nat.le_refl _
  | cons x xs ih =>
    simp only [filterWithIndex]
    split
    · simpa using ih (start + 1)
    · exact Nat.le_succ_of_le (ih (start + 1))

theorem handleAddPlayer_players (s s' : State) (h : handleAddPlayer s = some s') :
    s'.players = s.players ∨
      (s.players.length < 4 ∧ s'.players = s.players ++ [trim s.playerName]) := by
  unfold handleAddPlayer at h
  simp only at h
  by_cases hguard : (decide (trim s.playerName = "") || !canAddMorePlayers s) = true
  · rw [if_pos hguard] at h
    cases h
    left; rfl
  · rw [if_neg hguard] at h
    split at h
    · cases h
    · cases h
      right
      refine ⟨?_, rfl⟩
      simp only [canAddMorePlayers, Bool.or_eq_true, decide_eq_true_eq, Bool.not_eq_true',
        decide_eq_false_iff_not, not_or, Decidable.not_not] at hguard
      exact hguard.2

theorem handleRemovePlayer_players (s s' : State) (index : Int)
    (h : handleRemovePlayer s index = some s') : s'.players.length ≤ s.players.length := by
  unfold handleRemovePlayer at h
  split at h
  · cases h
  · cases h
    exact filterWithIndex_length_le _ _ _

theorem handleAddRound_players (s : State) : (handleAddRound s).players = s.players := by
  unfold handleAddRound
  split <;> rfl

theorem updateScore_players (Number : String → JSNumber) (s s' : State)
    (roundIdx playerIdx : Nat) (value : String)
    (h : updateScore Number s roundIdx playerIdx value = some s') :
    s'.players = s.players := by
  unfold updateScore at h
  simp only at h
  split at h
  · cases h
  · cases h; rfl

theorem step_players_le (Number : String → JSNumber) (s s' : State) (a : Action)
    (h : step Number s a = some s') (hcap : s.players.length ≤ 4) :
    s'.players.length ≤ 4 := by
  cases a with
  | addPlayer name =>
    rcases handleAddPlayer_players _ _ h with h1 | ⟨h1, h2⟩
    · rw [h1]; exact hcap
    · rw [h2, List.length_append]
      exact h1
  | removePlayer index => exact Nat.le_trans (handleRemovePlayer_players _ _ _ h) hcap
  | addRound =>
    cases h
    rw [handleAddRound_players]
    exact hcap
  | reset =>
    cases h
    exact Nat.zero_le _
  | updateScore roundIdx playerIdx value =>
    rw [updateScore_players Number _ _ _ _ _ h]
    exact hcap

/-! ## Evaluated examples -/

theorem jsNumber_five : jsNumber "5" = .finite 5 := by
  simp [jsNumber, trim, isWhiteSpace, readDecimal, readUnsignedDecimal, splitAtFirst,
    readDigits, digitValue?, ofValue]
  norm_num

theorem jsNumber_abc : jsNumber "abc" = .nan := by decide

theorem jsNumber_Infinity : jsNumber "Infinity" = .infinity false := by decide

theorem reachable_scored :
    Reachable jsNumber InGrid ⟨"", ["Ahmed", "Sara"], dense [[5, 0]], 1⟩ := by
  have h0 : Reachable jsNumber InGrid State.initial := Reachable.initial
  have h1 : Reachable jsNumber InGrid ⟨"", ["Ahmed"], [], 1⟩ :=
    Reachable.next (.addPlayer "Ahmed") h0 trivial (by decide)
  have h2 : Reachable jsNumber InGrid ⟨"", ["Ahmed", "Sara"], [], 1⟩ :=
    Reachable.next (.addPlayer " Sara ") h1 trivial (by decide)
  refine Reachable.next (.updateScore 0 0 "5") h2 (show _ ∧ _ from ⟨by decide, by decide⟩) ?_
  have h := updateScore_dense_inside jsNumber "" ["Ahmed", "Sara"] [] 1 0 0 "5"
    (by decide) (by decide)
  rw [jsNumber_five] at h
  exact h

theorem reachable_twoRounds :
    Reachable jsNumber InGrid ⟨"", ["Ahmed", "Sara"], dense [[5, 0], [0, 0]], 2⟩ :=
  Reachable.next .addRound reachable_scored trivial (by rfl)

theorem reachable_sparse :
    Reachable jsNumber AnyCall
      ⟨"", ["Ahmed", "Sara"],
        [.val [.val 0, .val 0], .hole, .val [.val 0, .val 0, .hole, .val 0]], 1⟩ := by
  have h0 : Reachable jsNumber AnyCall State.initial := Reachable.initial
  have h1 : Reachable jsNumber AnyCall ⟨"", ["Ahmed"], [], 1⟩ :=
    Reachable.next (.addPlayer "Ahmed") h0 trivial (by decide)
  have h2 : Reachable jsNumber AnyCall ⟨"", ["Ahmed", "Sara"], [], 1⟩ :=
    Reachable.next (.addPlayer " Sara ") h1 trivial (by decide)
  exact Reachable.next (.updateScore 2 3 "abc") h2 trivial (by decide)

theorem jsNumber_oneAndHalf : jsNumber "1.5" = .finite (3 / 2) := by
  simp [jsNumber, trim, isWhiteSpace, readDecimal, readUnsignedDecimal, splitAtFirst,
    readDigits, digitValue?, ofValue]
  norm_num

theorem reachable_firstRound :
    Reachable jsNumber InGrid ⟨"", ["Ahmed", "Sara"], dense [[0, 0]], 2⟩ := by
  have h0 : Reachable jsNumber InGrid State.initial := Reachable.initial
  have h1 : Reachable jsNumber InGrid ⟨"", ["Ahmed"], [], 1⟩ :=
    Reachable.next (.addPlayer "Ahmed") h0 trivial (by decide)
  have h2 : Reachable jsNumber InGrid ⟨"", ["Ahmed", "Sara"], [], 1⟩ :=
    Reachable.next (.addPlayer "Sara") h1 trivial (by decide)
  exact Reachable.next .addRound h2 trivial (by decide)

theorem reachable_oneAndHalf :
    Reachable jsNumber InGrid ⟨"", ["Ahmed"], dense [[3 / 2]], 1⟩ := by
  have h0 : Reachable jsNumber InGrid State.initial := Reachable.initial
  have h1 : Reachable jsNumber InGrid ⟨"", ["Ahmed"], [], 1⟩ :=
    Reachable.next (.addPlayer "Ahmed") h0 trivial (by decide)
  refine Reachable.next (.updateScore 0 0 "1.5") h1 (show _ ∧ _ from ⟨by decide, by decide⟩) ?_
  have h := updateScore_dense_inside jsNumber "" ["Ahmed"] [] 1 0 0 "1.5"
    (by decide) (by decide)
  rw [jsNumber_oneAndHalf] at h
  exact h

theorem reachable_integer :
    Reachable jsNumber (InGridInteger jsNumber)
      ⟨"", ["Ahmed", "Sara"], dense [[5, 0]], 1⟩ := by
  have h0 : Reachable jsNumber (InGridInteger jsNumber) State.initial := Reachable.initial
  have h1 : Reachable jsNumber (InGridInteger jsNumber) ⟨"", ["Ahmed"], [], 1⟩ :=
    Reachable.next (.addPlayer "Ahmed") h0 trivial (by decide)
  have h2 : Reachable jsNumber (InGridInteger jsNumber) ⟨"", ["Ahmed", "Sara"], [], 1⟩ :=
    Reachable.next (.addPlayer " Sara ") h1 trivial (by decide)
  have hint : ∀ q, jsNumber "5" = .finite q → ∃ z : Int, q = z := by
    intro q hq
    rw [jsNumber_five] at hq
    injection hq with hq
    exact ⟨5, by rw [← hq]; norm_num⟩
  refine Reachable.next (.updateScore 0 0 "5") h2
    (show (_ ∧ _) ∧ _ from ⟨⟨by decide, by decide⟩, hint⟩) ?_
  have h := updateScore_dense_inside jsNumber "" ["Ahmed", "Sara"] [] 1 0 0 "5"
    (by decide) (by decide)
  rw [jsNumber_five] at h
  exact h

/-! ## The claims -/

/-- C1, the row-width invariant: in every state reached from the initial state by AddPlayer,
RemovePlayer, AddRound, Reset and UpdateScore calls inside the rendered grid, `scores` is an
array of rows of numbers and every row has exactly `players.length` cells.  No such call
throws from such a state, so every one of them does lead to a next state. -/
theorem rowWidth_of_reachable (Number : String → JSNumber) (s : State)
    (h : Reachable Number InGrid s) :
    RowWidth s ∧ ∀ a, InGrid s a → ∃ s', step Number s a = some s' := by
  have hw : RowWidth s := by
    induction h with
    | initial => exact ⟨[], rfl, fun r hr => by cases hr⟩
    | next a _ ha hstep ih =>
      obtain ⟨s'', h1, h2⟩ := step_rowWidth Number _ a ih ha
      rw [hstep] at h1
      cases h1
      exact h2
  refine ⟨hw, fun a ha => ?_⟩
  obtain ⟨s', h1, _⟩ := step_rowWidth Number s a hw ha
  exact ⟨s', h1⟩

/-- C2, the player cap: in every state reached from the initial state by any sequence of
AddPlayer, RemovePlayer, AddRound, UpdateScore (with any indices) and Reset calls, `players`
has at most 4 entries. -/
theorem players_le_four_of_reachable (Number : String → JSNumber) (s : State)
    (h : Reachable Number AnyCall s) : s.players.length ≤ 4 := by
  induction h with
  | initial => exact Nat.zero_le _
  | next a _ _ hstep ih => exact step_players_le Number _ _ a hstep ih

theorem rowWidth_of_reachable_witness :
    RowWidth ⟨"", ["Ahmed", "Sara"], dense [[5, 0], [0, 0]], 2⟩ ∧
      ∀ a, InGrid ⟨"", ["Ahmed", "Sara"], dense [[5, 0], [0, 0]], 2⟩ a →
        ∃ s', step jsNumber ⟨"", ["Ahmed", "Sara"], dense [[5, 0], [0, 0]], 2⟩ a = some s' :=
  rowWidth_of_reachable jsNumber _ reachable_twoRounds

theorem players_le_four_of_reachable_witness :
    (["Ahmed", "Sara"] : List String).length ≤ 4 :=
  players_le_four_of_reachable jsNumber
    ⟨"", ["Ahmed", "Sara"],
      [.val [.val 0, .val 0], .hole, .val [.val 0, .val 0, .hole, .val 0]], 1⟩
    reachable_sparse

/-- C3, AddPlayer success: in a state with fewer than 4 players (`scores` an array of rows
of numbers), AddPlayer of a name whose trimmed form is not empty appends the trimmed name to
`players`, appends a `0` to every row of `scores` (same rows, same order, old cells kept),
keeps `currentRound` and clears the pending name input. -/
theorem addPlayer_appends (playerName : String) (players : List String)
    (rows : List (List ℚ)) (currentRound : Nat) (name : String)
    (hlen : players.length < 4) (hname : trim name ≠ "") :
    AddPlayer ⟨playerName, players, dense rows, currentRound⟩ name
      = some ⟨"", players ++ [trim name], dense (rows.map fun r => r ++ [0]),
          currentRound⟩ :=
  handleAddPlayer_dense name players rows currentRound hname hlen

theorem addPlayer_appends_witness :
    AddPlayer ⟨"", ["Ahmed"], dense [[5], [0]], 2⟩ " Sara "
      = some ⟨"", ["Ahmed", "Sara"], dense [[5, 0], [0, 0]], 2⟩ :=
  addPlayer_appends "" ["Ahmed"] [[5], [0]] 2 " Sara " (by decide) (by decide)

/-- C4, AddPlayer rejection: in every state, when the trimmed name is empty or there are
already 4 players (or more), AddPlayer leaves `players`, `scores` and `currentRound` as
they were.  In particular, after four successful adds to a table without players, a fifth
AddPlayer leaves `players` (and `scores`, `currentRound`) unchanged. -/
theorem addPlayer_rejects (s : State) (name : String)
    (h : trim name = "" ∨ 4 ≤ s.players.length) :
    (∃ s', AddPlayer s name = some s' ∧ s'.players = s.players ∧ s'.scores = s.scores ∧
      s'.currentRound = s.currentRound) ∧
    ∀ (playerName : String) (rows : List (List ℚ)) (currentRound : Nat)
      (n1 n2 n3 n4 n5 : String),
      trim n1 ≠ "" → trim n2 ≠ "" → trim n3 ≠ "" → trim n4 ≠ "" →
      ∃ s4 s5,
        ((((AddPlayer ⟨playerName, [], dense rows, currentRound⟩ n1).bind
          fun s1 => AddPlayer s1 n2).bind fun s2 => AddPlayer s2 n3).bind
          fun s3 => AddPlayer s3 n4) = some s4 ∧
        s4.players = [trim n1, trim n2, trim n3, trim n4] ∧
        AddPlayer s4 n5 = some s5 ∧ s5.players = s4.players ∧ s5.scores = s4.scores ∧
        s5.currentRound = s4.currentRound := by
  constructor
  · exact ⟨setPlayerName s name, handleAddPlayer_reject (setPlayerName s name) h, rfl, rfl, rfl⟩
  · intro playerName rows currentRound n1 n2 n3 n4 n5 h1 h2 h3 h4
    have e1 : AddPlayer ⟨playerName, [], dense rows, currentRound⟩ n1
        = some ⟨"", [trim n1], dense (rows.map fun r => r ++ [0]), currentRound⟩ :=
      handleAddPlayer_dense n1 [] rows currentRound h1 (by simp)
    have e2 : AddPlayer ⟨"", [trim n1], dense (rows.map fun r => r ++ [0]), currentRound⟩ n2
        = some ⟨"", [trim n1, trim n2],
            dense ((rows.map fun r => r ++ [0]).map fun r => r ++ [0]), currentRound⟩ :=
      handleAddPlayer_dense n2 [trim n1] _ currentRound h2 (by simp)
    have e3 : AddPlayer ⟨"", [trim n1, trim n2],
          dense ((rows.map fun r => r ++ [0]).map fun r => r ++ [0]), currentRound⟩ n3
        = some ⟨"", [trim n1, trim n2, trim n3],
            dense (((rows.map fun r => r ++ [0]).map fun r => r ++ [0]).map
              fun r => r ++ [0]), currentRound⟩ :=
      handleAddPlayer_dense n3 [trim n1, trim n2] _ currentRound h3 (by simp)
    have e4 : AddPlayer ⟨"", [trim n1, trim n2, trim n3],
          dense (((rows.map fun r => r ++ [0]).map fun r => r ++ [0]).map
            fun r => r ++ [0]), currentRound⟩ n4
        = some ⟨"", [trim n1, trim n2, trim n3, trim n4],
            dense ((((rows.map fun r => r ++ [0]).map fun r => r ++ [0]).map
              fun r => r ++ [0]).map fun r => r ++ [0]), currentRound⟩ :=
      handleAddPlayer_dense n4 [trim n1, trim n2, trim n3] _ currentRound h4 (by simp)
    rw [e1, Option.some_bind, e2, Option.some_bind, e3, Option.some_bind, e4]
    exact ⟨_, _, rfl, rfl,
      handleAddPlayer_reject (setPlayerName _ n5) (Or.inr (by simp [setPlayerName])),
      rfl, rfl, rfl⟩

theorem addPlayer_rejects_witness :
    (∃ s', AddPlayer ⟨"", ["Ahmed"], dense [[5]], 1⟩ "  " = some s' ∧
      s'.players = ["Ahmed"] ∧ s'.scores = dense [[5]] ∧ s'.currentRound = 1) :=
  (addPlayer_rejects ⟨"", ["Ahmed"], dense [[5]], 1⟩ "  " (Or.inl (by decide))).1

/-- C5, RemovePlayer effect: for an index `0 <= index < players.length`, RemovePlayer yields
`players` with exactly the entry at that position removed and every row of `scores` with
exactly the cell at that position removed (`List.eraseIdx` keeps the order of the others);
the number of rows, `currentRound` and the pending name input are unchanged. -/
theorem removePlayer_removes (playerName : String) (players : List String)
    (rows : List (List ℚ)) (currentRound : Nat) (index : Int)
    (h0 : 0 ≤ index) (h1 : index < players.length) :
    handleRemovePlayer ⟨playerName, players, dense rows, currentRound⟩ index
        = some ⟨playerName, players.eraseIdx index.toNat,
            dense (rows.map fun r => r.eraseIdx index.toNat), currentRound⟩ ∧
      (players.eraseIdx index.toNat).length + 1 = players.length ∧
      (rows.map fun r => r.eraseIdx index.toNat).length = rows.length := by
  obtain ⟨i, rfl⟩ := Int.eq_ofNat_of_zero_le h0
  have hi : i < players.length := by exact_mod_cast h1
  refine ⟨handleRemovePlayer_dense playerName players rows currentRound i, ?_, ?_⟩
  · rw [Int.toNat_ofNat, List.length_eraseIdx, if_pos hi]
    omega
  · rw [List.length_map]

theorem removePlayer_removes_witness :
    handleRemovePlayer ⟨"", ["Ahmed", "Sara", "Omar"], dense [[5, 7, 9], [1, 2, 3]], 2⟩ 1
        = some ⟨"", ["Ahmed", "Omar"], dense [[5, 9], [1, 3]], 2⟩ ∧
      (["Ahmed", "Omar"] : List String).length + 1
        = (["Ahmed", "Sara", "Omar"] : List String).length ∧
      ([[5, 9], [1, 3]] : List (List ℚ)).length = ([[5, 7, 9], [1, 2, 3]] : List (List ℚ)).length :=
  removePlayer_removes "" ["Ahmed", "Sara", "Omar"] [[5, 7, 9], [1, 2, 3]] 2 1
    (by decide) (by decide)

/-- C6, RemovePlayer out of range: in a state satisfying the row-width invariant, RemovePlayer
with an index `index < 0` or `index >= players.length` changes nothing: `players`, `scores`
and `currentRound` stay as they were. -/
theorem removePlayer_outOfRange (s : State) (index : Int) (hw : RowWidth s)
    (hout : index < 0 ∨ (s.players.length : Int) ≤ index) :
    handleRemovePlayer s index = some s := by
  obtain ⟨playerName, players, scores, currentRound⟩ := s
  obtain ⟨rows, hs, hwidth⟩ := hw
  simp only at hs hwidth hout
  subst hs
  exact handleRemovePlayer_outside playerName players rows currentRound index hwidth hout

theorem removePlayer_outOfRange_witness :
    handleRemovePlayer ⟨"", ["Ahmed", "Sara"], dense [[5, 0], [0, 0]], 2⟩ 2
      = some ⟨"", ["Ahmed", "Sara"], dense [[5, 0], [0, 0]], 2⟩ :=
  removePlayer_outOfRange ⟨"", ["Ahmed", "Sara"], dense [[5, 0], [0, 0]], 2⟩ 2
    ⟨[[5, 0], [0, 0]], rfl, by decide⟩ (Or.inr (by decide))

/-- C7, AddRound: in every state without players AddRound changes nothing; in a state with
at least one player it appends one row of `players.length` zeros to `scores`, adds 1 to
`currentRound` and leaves `players` unchanged. -/
theorem addRound_effect (playerName : String) (players : List String)
    (rows : List (List ℚ)) (currentRound : Nat) :
    (∀ s : State, s.players = [] → handleAddRound s = s) ∧
      (players ≠ [] →
        handleAddRound ⟨playerName, players, dense rows, currentRound⟩
          = ⟨playerName, players, dense (rows ++ [List.replicate players.length 0]),
              currentRound + 1⟩) :=
  ⟨handleAddRound_noPlayers, handleAddRound_dense playerName players rows currentRound⟩

theorem addRound_effect_witness :
    handleAddRound ⟨"", [], dense [[]], 3⟩ = ⟨"", [], dense [[]], 3⟩ ∧
      handleAddRound ⟨"", ["Ahmed", "Sara"], dense [[5, 0]], 1⟩
        = ⟨"", ["Ahmed", "Sara"], dense [[5, 0], [0, 0]], 2⟩ :=
  ⟨(addRound_effect "" [] [] 0).1 ⟨"", [], dense [[]], 3⟩ rfl,
    (addRound_effect "" ["Ahmed", "Sara"] [[5, 0]] 1).2 (by decide)⟩

/-- C8, UpdateScore writes exactly one visible cell: in a state satisfying the row-width
invariant, for `(roundIdx, playerIdx)` inside the rendered grid, the rendered rows after
UpdateScore are the rendered rows before (`shown`) with the single cell
`[roundIdx][playerIdx]` replaced by the parsed value (0 when it is not finite): same number
of rows, every other cell as before, `players` and `currentRound` unchanged.  The stored
`scores` are then those rendered rows, also when `scores` was empty and `shown` are the
`currentRound` placeholder rows of zeros. -/
theorem updateScore_writes_one_cell (Number : String → JSNumber) (s : State)
    (roundIdx playerIdx : Nat) (value : String) (hw : RowWidth s)
    (hr : roundIdx < (rowsToRender s).length) (hp : playerIdx < s.players.length) :
    ∃ (shown : List (List ℚ)) (s' : State),
      rowsToRender s = dense shown ∧
      (s.scores = [] →
        shown = List.replicate s.currentRound (List.replicate s.players.length 0)) ∧
      updateScore Number s roundIdx playerIdx value = some s' ∧
      rowsToRender s'
        = dense (writeCell shown roundIdx playerIdx (Number value).finiteOrZero) ∧
      s'.scores = rowsToRender s' ∧
      (writeCell shown roundIdx playerIdx (Number value).finiteOrZero).length = shown.length ∧
      (∀ i j, cellOf (writeCell shown roundIdx playerIdx (Number value).finiteOrZero) i j
        = if i = roundIdx ∧ j = playerIdx then some (Number value).finiteOrZero
          else cellOf shown i j) ∧
      s'.players = s.players ∧ s'.currentRound = s.currentRound := by
  obtain ⟨playerName, players, scores, currentRound⟩ := s
  obtain ⟨rows, hs, hwidth⟩ := hw
  simp only at hs hwidth hp
  subst hs
  rw [rowsToRender_dense, length_dense] at hr
  have hshown := shownRows_width rows players currentRound hwidth
  have hrow : ((shownRows rows players currentRound).getD roundIdx []).length
      = players.length := by
    rw [List.getD_eq_getElem?_getD, List.getElem?_eq_getElem hr]
    exact hshown _ (List.getElem_mem hr)
  have hp' : playerIdx < ((shownRows rows players currentRound).getD roundIdx []).length := by
    rw [hrow]; exact hp
  have hrender : rowsToRender ⟨playerName, players,
      dense (writeCell (shownRows rows players currentRound) roundIdx playerIdx
        (Number value).finiteOrZero), currentRound⟩
      = dense (writeCell (shownRows rows players currentRound) roundIdx playerIdx
        (Number value).finiteOrZero) := by
    rw [rowsToRender_dense]
    congr 1
    unfold shownRows
    rw [if_pos]
    rw [length_writeCell]
    exact fun h0 => by
      unfold shownRows at hr
      omega
  refine ⟨shownRows rows players currentRound, _, rowsToRender_dense _ _ _ _, ?_,
    updateScore_dense_inside Number playerName players rows currentRound roundIdx playerIdx
      value hr hp', hrender, hrender.symm, length_writeCell _ _ _ _,
    cellOf_writeCell _ _ _ _ hr hp', rfl, rfl⟩
  intro hempty
  have hrows : rows = [] := by
    cases rows with
    | nil => rfl
    | cons r rs => simp [dense] at hempty
  simp [hrows, shownRows]

theorem updateScore_writes_one_cell_witness :
    ∃ (shown : List (List ℚ)) (s' : State),
      rowsToRender ⟨"", ["Ahmed", "Sara"], [], 1⟩ = dense shown ∧
      ((⟨"", ["Ahmed", "Sara"], [], 1⟩ : State).scores = [] →
        shown = List.replicate 1 (List.replicate 2 0)) ∧
      updateScore jsNumber ⟨"", ["Ahmed", "Sara"], [], 1⟩ 0 0 "5" = some s' ∧
      rowsToRender s' = dense (writeCell shown 0 0 (jsNumber "5").finiteOrZero) ∧
      s'.scores = rowsToRender s' ∧
      (writeCell shown 0 0 (jsNumber "5").finiteOrZero).length = shown.length ∧
      (∀ i j, cellOf (writeCell shown 0 0 (jsNumber "5").finiteOrZero) i j
        = if i = 0 ∧ j = 0 then some (jsNumber "5").finiteOrZero else cellOf shown i j) ∧
      s'.players = ["Ahmed", "Sara"] ∧ s'.currentRound = 1 :=
  updateScore_writes_one_cell jsNumber ⟨"", ["Ahmed", "Sara"], [], 1⟩ 0 0 "5"
    ⟨[], rfl, by decide⟩ (by decide) (by decide)

/-- C9, UpdateScore coercion: for a state whose `scores` is an array of rows of numbers and
`(roundIdx, playerIdx)` inside the rendered grid, UpdateScore does apply the edit: the cell
`scores[roundIdx][playerIdx]` is afterwards 0 when the raw value does not parse to a finite
number (`NaN`, an infinity), and `n` when it parses to the finite number `n`. -/
theorem updateScore_coerces (Number : String → JSNumber) (playerName : String)
    (players : List String) (rows : List (List ℚ)) (currentRound : Nat)
    (roundIdx playerIdx : Nat) (value : String)
    (_hr : roundIdx < (rowsToRender ⟨playerName, players, dense rows, currentRound⟩).length)
    (_hp : playerIdx < players.length) :
    ∃ s', updateScore Number ⟨playerName, players, dense rows, currentRound⟩ roundIdx
        playerIdx value = some s' ∧
      ((Number value).isFinite = false → s'.cell roundIdx playerIdx = some 0) ∧
      (∀ n, Number value = .finite n → s'.cell roundIdx playerIdx = some n) := by
  refine ⟨_, updateScore_dense Number playerName players rows currentRound roundIdx playerIdx
    value, ?_, ?_⟩
  · intro hfin
    have hzero : (Number value).finiteOrZero = 0 := by
      cases hnum : Number value with
      | finite q => rw [hnum] at hfin; cases hfin
      | nan => rfl
      | infinity negative => rfl
    simp only [State.cell, get?_assign_self, Option.some_bind, hzero]
  · intro n hn
    simp only [State.cell, get?_assign_self, Option.some_bind, hn, JSNumber.finiteOrZero]

theorem updateScore_coerces_witness :
    ∃ s', updateScore jsNumber ⟨"", ["Ahmed", "Sara"], dense [[5, 0]], 1⟩ 0 0 "abc" = some s' ∧
      s'.cell 0 0 = some 0 :=
  match updateScore_coerces jsNumber "" ["Ahmed", "Sara"] [[5, 0]] 1 0 0 "abc"
      (by decide) (by decide) with
  | ⟨s', h, hzero, _⟩ => ⟨s', h, hzero (by decide)⟩

/-- C10, Reset: from every state, Reset yields `players = []`, `scores = []`,
`currentRound = 1` and an empty pending name input, which is the initial state. -/
theorem reset_clears (s : State) :
    handleReset s = ⟨"", [], [], 1⟩ ∧ handleReset s = State.initial :=
  ⟨rfl, rfl⟩

/-! ## The totals -/

theorem mapWithIndex_eq_range' {α β : Type} (g : Nat → β) (l : List α) (start : Nat) :
    mapWithIndex (fun _ i => g i) l start = (List.range' start l.length).map g := by
  induction l generalizing start with
  | nil => rfl
  | cons x xs ih =>
    simp only [mapWithIndex, List.length_cons, List.range'_succ, List.map_cons]
    rw [ih]

theorem cellOrZero_value? (round : Slot (JSArray ℚ)) (p : Nat) :
    cellOrZero round.value? p = specCell round p := by
  cases round with
  | hole => rfl
  | undef => rfl
  | val row =>
    simp only [cellOrZero, Slot.value?, Option.some_bind, JSArray.get?, specCell]
    cases hcell : row[p]? with
    | none => rfl
    | some c => cases c <;> rfl

theorem reduce_sum (p : Nat) (a : JSArray (JSArray ℚ)) (init : ℚ) :
    JSArray.reduce (fun sum round => sum + cellOrZero round p) init a
      = init + (a.map fun round => specCell round p).sum := by
  induction a generalizing init with
  | nil => simp [JSArray.reduce]
  | cons x xs ih =>
    cases x with
    | hole => simp [JSArray.reduce, ih, specCell]
    | undef =>
      simp only [JSArray.reduce, ih, List.map_cons, List.sum_cons]
      rw [cellOrZero_value?, add_assoc]
    | val row =>
      simp only [JSArray.reduce, ih, List.map_cons, List.sum_cons]
      rw [cellOrZero_value?, add_assoc]

theorem totals_eq_specTotals (s : State) : totals s = specTotals s := by
  unfold totals specTotals columnSum
  rw [mapWithIndex_eq_range', List.range_eq_range']
  apply List.map_congr_left
  intro p _
  rw [reduce_sum, zero_add]

theorem specCell_dense (r : List ℚ) (p : Nat) :
    specCell (.val (r.map Slot.val)) p = r.getD p 0 := by
  simp only [specCell, List.getElem?_map, List.getD_eq_getElem?_getD]
  cases r[p]? <;> rfl

theorem columnSum_dense (playerName : String) (players : List String)
    (rows : List (List ℚ)) (currentRound : Nat) (p : Nat) :
    columnSum ⟨playerName, players, dense rows, currentRound⟩ p
      = plainColumnSum (shownRows rows players currentRound) p := by
  unfold columnSum plainColumnSum
  rw [rowsToRender_dense, dense, List.map_map]
  congr 1
  apply List.map_congr_left
  intro r _
  exact specCell_dense r p

theorem totals_dense (playerName : String) (players : List String)
    (rows : List (List ℚ)) (currentRound : Nat) :
    totals ⟨playerName, players, dense rows, currentRound⟩
      = (List.range players.length).map
          fun p => plainColumnSum (shownRows rows players currentRound) p := by
  rw [totals_eq_specTotals, specTotals]
  apply List.map_congr_left
  intro p _
  exact columnSum_dense playerName players rows currentRound p

/-- C11, the definition of DerivedRows: in every state `rowsToRender` is `scores` itself when
`scores` is not empty, and otherwise exactly `currentRound` rows of `players.length` zeros.
In particular, after AddPlayer("Ahmed") and AddPlayer("Sara") from the initial state,
`players` is `["Ahmed", "Sara"]`, `scores` is empty and the rendered rows are `[[0, 0]]`. -/
theorem rowsToRender_cases (s : State) :
    (s.scores ≠ [] → rowsToRender s = s.scores) ∧
      (s.scores = [] → rowsToRender s
        = dense (List.replicate s.currentRound (List.replicate s.players.length 0))) ∧
      ∃ s2, ((AddPlayer State.initial "Ahmed").bind fun s1 => AddPlayer s1 "Sara") = some s2 ∧
        s2.players = ["Ahmed", "Sara"] ∧ s2.scores = [] ∧ rowsToRender s2 = dense [[0, 0]] := by
  refine ⟨fun h => ?_, fun h => ?_, ⟨"", ["Ahmed", "Sara"], [], 1⟩, by decide, rfl, rfl, rfl⟩
  · have hlen : s.scores.length ≠ 0 := fun h0 => h (List.length_eq_zero.mp h0)
    simp only [rowsToRender, hlen, ne_eq, not_false_eq_true, if_true]
  · simp only [rowsToRender, h, List.length_nil, ne_eq, not_true_eq_false, if_false]
    exact placeholderRows_dense s

/-! ## The largest and the smallest total -/

theorem foldl_max_mem (t : ℚ) (ts : List ℚ) : ts.foldl max t ∈ t :: ts := by
  induction ts generalizing t with
  | nil => simp
  | cons x xs ih =>
    rw [List.foldl_cons]
    rcases List.mem_cons.mp (ih (max t x)) with h | h
    · rw [h]
      rcases max_choice t x with hc | hc
      · rw [hc]; exact List.mem_cons_self _ _
      · rw [hc]; exact List.mem_cons_of_mem _ (List.mem_cons_self _ _)
    · exact List.mem_cons_of_mem _ (List.mem_cons_of_mem _ h)

theorem le_foldl_max (t : ℚ) (ts : List ℚ) : ∀ x ∈ t :: ts, x ≤ ts.foldl max t := by
  induction ts generalizing t with
  | nil =>
    intro x hx
    rw [List.mem_singleton.mp hx]
    exact le_refl _
  | cons y ys ih =>
    intro x hx
    rw [List.foldl_cons]
    rcases List.mem_cons.mp hx with h | h
    · rw [h]
      exact le_trans (le_max_left t y) (ih (max t y) _ (List.mem_cons_self _ _))
    · rcases List.mem_cons.mp h with h | h
      · rw [h]
        exact le_trans (le_max_right t y) (ih (max t y) _ (List.mem_cons_self _ _))
      · exact ih (max t y) x (List.mem_cons_of_mem _ h)

theorem foldl_min_mem (t : ℚ) (ts : List ℚ) : ts.foldl min t ∈ t :: ts := by
  induction ts generalizing t with
  | nil => simp
  | cons x xs ih =>
    rw [List.foldl_cons]
    rcases List.mem_cons.mp (ih (min t x)) with h | h
    · rw [h]
      rcases min_choice t x with hc | hc
      · rw [hc]; exact List.mem_cons_self _ _
      · rw [hc]; exact List.mem_cons_of_mem _ (List.mem_cons_self _ _)
    · exact List.mem_cons_of_mem _ (List.mem_cons_of_mem _ h)

theorem foldl_min_le (t : ℚ) (ts : List ℚ) : ∀ x ∈ t :: ts, ts.foldl min t ≤ x := by
  induction ts generalizing t with
  | nil =>
    intro x hx
    rw [List.mem_singleton.mp hx]
    exact le_refl _
  | cons y ys ih =>
    intro x hx
    rw [List.foldl_cons]
    rcases List.mem_cons.mp hx with h | h
    · rw [h]
      exact le_trans (ih (min t y) _ (List.mem_cons_self _ _)) (min_le_left t y)
    · rcases List.mem_cons.mp h with h | h
      · rw [h]
        exact le_trans (ih (min t y) _ (List.mem_cons_self _ _)) (min_le_right t y)
      · exact ih (min t y) x (List.mem_cons_of_mem _ h)

theorem totals_eq_nil_iff (s : State) : totals s = [] ↔ s.players = [] := by
  rw [← List.length_eq_zero, ← List.length_eq_zero, totals_eq_specTotals, specTotals,
    List.length_map, List.length_range]

theorem maxScore_noPlayers (s : State) (h : s.players = []) : maxScore s = 0 := by
  unfold maxScore
  rw [(totals_eq_nil_iff s).mpr h]

theorem minScore_noPlayers (s : State) (h : s.players = []) : minScore s = 0 := by
  unfold minScore
  rw [(totals_eq_nil_iff s).mpr h]

theorem maxScore_mem (s : State) (h : s.players ≠ []) :
    maxScore s ∈ totals s ∧ ∀ t ∈ totals s, t ≤ maxScore s := by
  unfold maxScore
  cases htot : totals s with
  | nil => exact absurd ((totals_eq_nil_iff s).mp htot) h
  | cons t ts => exact ⟨foldl_max_mem t ts, le_foldl_max t ts⟩

theorem minScore_mem (s : State) (h : s.players ≠ []) :
    minScore s ∈ totals s ∧ ∀ t ∈ totals s, minScore s ≤ t := by
  unfold minScore
  cases htot : totals s with
  | nil => exact absurd ((totals_eq_nil_iff s).mp htot) h
  | cons t ts => exact ⟨foldl_min_mem t ts, foldl_min_le t ts⟩

/-- C13, MaxTotal and MinTotal: in a state without players both `maxScore` and `minScore`
are 0; in a state with at least one player `maxScore` is an element of `totals` that is at
least every element, `minScore` is an element of `totals` that is at most every element, and
so `minScore <= maxScore`. -/
theorem maxScore_minScore_spec (s : State) :
    (s.players = [] → maxScore s = 0 ∧ minScore s = 0) ∧
      (s.players ≠ [] →
        (maxScore s ∈ totals s ∧ ∀ t ∈ totals s, t ≤ maxScore s) ∧
        (minScore s ∈ totals s ∧ ∀ t ∈ totals s, minScore s ≤ t) ∧
        minScore s ≤ maxScore s) := by
  refine ⟨fun h => ⟨maxScore_noPlayers s h, minScore_noPlayers s h⟩, fun h => ?_⟩
  have hmax := maxScore_mem s h
  have hmin := minScore_mem s h
  exact ⟨hmax, hmin, hmax.2 _ hmin.1⟩

theorem maxScore_minScore_spec_witness :
    (maxScore ⟨"", [], dense [[], []], 2⟩ = 0 ∧ minScore ⟨"", [], dense [[], []], 2⟩ = 0) ∧
      minScore ⟨"", ["Ahmed", "Sara"], dense [[5, 0], [1, 2]], 2⟩
        ≤ maxScore ⟨"", ["Ahmed", "Sara"], dense [[5, 0], [1, 2]], 2⟩ :=
  ⟨(maxScore_minScore_spec ⟨"", [], dense [[], []], 2⟩).1 rfl,
    ((maxScore_minScore_spec ⟨"", ["Ahmed", "Sara"], dense [[5, 0], [1, 2]], 2⟩).2
      (by decide)).2.2⟩

/-! ## The round counter and the stored rows -/

theorem length_mapThrow {α β : Type} (f : Option α → Option β) (a : JSArray α)
    (b : JSArray β) (h : JSArray.mapThrow f a = some b) : b.length = a.length := by
  induction a generalizing b with
  | nil =>
    simp only [JSArray.mapThrow, Option.some.injEq] at h
    subst h
    rfl
  | cons x xs ih =>
    cases x with
    | hole =>
      simp only [JSArray.mapThrow, Option.map_eq_some'] at h
      obtain ⟨b', hb', rfl⟩ := h
      simp [ih b' hb']
    | undef =>
      simp only [JSArray.mapThrow] at h
      split at h
      · cases h
      · simp only [Option.map_eq_some'] at h
        obtain ⟨b', hb', rfl⟩ := h
        simp [ih b' hb']
    | val v =>
      simp only [JSArray.mapThrow] at h
      split at h
      · cases h
      · simp only [Option.map_eq_some'] at h
        obtain ⟨b', hb', rfl⟩ := h
        simp [ih b' hb']

theorem length_assign_of_lt {α : Type} (a : JSArray α) (i : Nat) (v : α) (h : i < a.length) :
    (JSArray.assign a i v).length = a.length := by
  induction a generalizing i with
  | nil => simp at h
  | cons x xs ih =>
    cases i with
    | zero => simp [JSArray.assign]
    | succ i =>
      simp only [List.length_cons, Nat.add_lt_add_iff_right] at h
      simp [JSArray.assign, ih i h]

theorem length_rowsToRender (s : State) :
    (rowsToRender s).length = if s.scores.length ≠ 0 then s.scores.length else s.currentRound := by
  unfold rowsToRender placeholderRows
  split <;> simp

theorem handleAddPlayer_frame (s s' : State) (h : handleAddPlayer s = some s') :
    s'.scores.length = s.scores.length ∧ s'.currentRound = s.currentRound := by
  unfold handleAddPlayer at h
  simp only at h
  by_cases hguard : (decide (trim s.playerName = "") || !canAddMorePlayers s) = true
  · rw [if_pos hguard] at h
    cases h
    exact ⟨rfl, rfl⟩
  · rw [if_neg hguard] at h
    split at h
    · cases h
    · rename_i scores hmap
      cases h
      exact ⟨length_mapThrow _ _ _ hmap, rfl⟩

theorem handleRemovePlayer_frame (s s' : State) (index : Int)
    (h : handleRemovePlayer s index = some s') :
    s'.scores.length = s.scores.length ∧ s'.currentRound = s.currentRound := by
  unfold handleRemovePlayer at h
  split at h
  · cases h
  · rename_i scores hmap
    cases h
    exact ⟨length_mapThrow _ _ _ hmap, rfl⟩

theorem updateScore_frame (Number : String → JSNumber) (s s' : State)
    (roundIdx playerIdx : Nat) (value : String) (hr : roundIdx < (rowsToRender s).length)
    (h : updateScore Number s roundIdx playerIdx value = some s') :
    s'.scores.length = (rowsToRender s).length ∧ s'.currentRound = s.currentRound := by
  unfold updateScore at h
  simp only at h
  split at h
  · cases h
  · rename_i next hmap
    cases h
    have hlen := length_mapThrow _ _ _ hmap
    have hlen' : next.length = (rowsToRender s).length := hlen
    refine ⟨?_, rfl⟩
    simp only
    rw [length_assign_of_lt _ _ _ (by rw [hlen']; exact hr), hlen']

theorem step_roundTrack (Number : String → JSNumber) (s s' : State) (a : Action)
    (ha : InGrid s a) (h : step Number s a = some s')
    (hinv : 1 ≤ s.currentRound ∧ s.scores.length ≤ s.currentRound ∧
      s.currentRound ≤ s.scores.length + 1) :
    1 ≤ s'.currentRound ∧ s'.scores.length ≤ s'.currentRound ∧
      s'.currentRound ≤ s'.scores.length + 1 := by
  cases a with
  | addPlayer name =>
    obtain ⟨h1, h2⟩ := handleAddPlayer_frame _ _ h
    rw [h1, h2]
    exact hinv
  | removePlayer index =>
    obtain ⟨h1, h2⟩ := handleRemovePlayer_frame _ _ _ h
    rw [h1, h2]
    exact hinv
  | addRound =>
    cases h
    unfold handleAddRound
    split
    · exact hinv
    · simp only [List.length_append, JSArray.spread, List.length_map, List.length_singleton]
      omega
  | reset =>
    cases h
    simp [handleReset]
  | updateScore roundIdx playerIdx value =>
    obtain ⟨h1, h2⟩ := updateScore_frame Number _ _ _ _ _ ha.1 h
    rw [h1, h2, length_rowsToRender]
    split <;> omega

/-- C14, at the input where the code departs from the claim: after AddPlayer("Ahmed"),
AddPlayer("Sara") and AddRound from the initial state, `currentRound` is 2 and `scores` is
`[[0, 0]]`, and the rendered rows are that one stored row, not 2 rows; the state is reachable,
so the number of rendered rows is not `currentRound` in every reachable state. -/
theorem rowsToRender_after_first_addRound :
    ∃ s3, (((AddPlayer State.initial "Ahmed").bind fun s1 => AddPlayer s1 "Sara").map
        handleAddRound) = some s3 ∧
      s3.currentRound = 2 ∧ s3.scores = dense [[0, 0]] ∧ (rowsToRender s3).length = 1 ∧
      Reachable jsNumber InGrid s3 := by
  exact ⟨⟨"", ["Ahmed", "Sara"], dense [[0, 0]], 2⟩, by decide, rfl, rfl, by decide,
    reachable_firstRound⟩

/-- C16, the highlight tie-break: in a state with at least one player, a total `t` of
`totals` is styled as the maximum (`text-red-500`) exactly when `t = maxScore`, as the minimum
(`text-green-600`) exactly when `t` is not `maxScore` and `t = minScore`, and neutral
(`text-gray-700`) otherwise.  So when all totals are equal, as with a single player, every
total is styled as the maximum and none as the minimum. -/
theorem totalClass_spec (s : State) (t : ℚ) (hplayers : s.players ≠ []) (ht : t ∈ totals s) :
    (totalClass s t = "text-red-500" ↔ t = maxScore s) ∧
      (totalClass s t = "text-green-600" ↔ t ≠ maxScore s ∧ t = minScore s) ∧
      (totalClass s t = "text-gray-700" ↔ t ≠ maxScore s ∧ t ≠ minScore s) ∧
      ((∀ u ∈ totals s, u = t) →
        totalClass s t = "text-red-500" ∧ totalClass s t ≠ "text-green-600") ∧
      (s.players.length = 1 →
        totalClass s t = "text-red-500" ∧ totalClass s t ≠ "text-green-600") := by
  have hpos : s.players.length > 0 := List.length_pos.mpr hplayers
  have hred : totalClass s t = "text-red-500" ↔ t = maxScore s := by
    unfold totalClass
    rw [if_pos hpos]
    split_ifs with h1 h2
    · exact ⟨fun _ => h1, fun _ => rfl⟩
    · exact ⟨fun h => absurd h (by decide), fun h => absurd h h1⟩
    · exact ⟨fun h => absurd h (by decide), fun h => absurd h h1⟩
  have hgreen : totalClass s t = "text-green-600" ↔ t ≠ maxScore s ∧ t = minScore s := by
    unfold totalClass
    rw [if_pos hpos]
    split_ifs with h1 h2
    · exact ⟨fun h => absurd h (by decide), fun h => absurd h1 h.1⟩
    · exact ⟨fun _ => ⟨h1, h2⟩, fun _ => rfl⟩
    · exact ⟨fun h => absurd h (by decide), fun h => absurd h.2 h2⟩
  have hgray : totalClass s t = "text-gray-700" ↔ t ≠ maxScore s ∧ t ≠ minScore s := by
    unfold totalClass
    rw [if_pos hpos]
    split_ifs with h1 h2
    · exact ⟨fun h => absurd h (by decide), fun h => absurd h1 h.1⟩
    · exact ⟨fun h => absurd h (by decide), fun h => absurd h2 h.2⟩
    · exact ⟨fun _ => ⟨h1, h2⟩, fun _ => rfl⟩
  have hequal : (∀ u ∈ totals s, u = t) →
      totalClass s t = "text-red-500" ∧ totalClass s t ≠ "text-green-600" := by
    intro hall
    have hmax : t = maxScore s := (hall _ (maxScore_mem s hplayers).1).symm
    have hclass := hred.mpr hmax
    exact ⟨hclass, by rw [hclass]; decide⟩
  refine ⟨hred, hgreen, hgray, hequal, fun hone => hequal ?_⟩
  intro u hu
  have hlen : (totals s).length = 1 := by
    rw [totals_eq_specTotals, specTotals, List.length_map, List.length_range, hone]
  obtain ⟨x, hx⟩ := List.length_eq_one.mp hlen
  rw [hx] at hu ht
  rw [List.mem_singleton.mp hu, List.mem_singleton.mp ht]

/-- C17, the stored rows track the round counter: in every state reached from the initial
state by AddPlayer, RemovePlayer, AddRound, Reset and UpdateScore inside the grid,
`currentRound >= 1` and `scores.length <= currentRound <= scores.length + 1`; in particular
an empty `scores` implies `currentRound = 1`, and then exactly one placeholder row is
rendered. -/
theorem roundTrack_of_reachable (Number : String → JSNumber) (s : State)
    (h : Reachable Number InGrid s) :
    1 ≤ s.currentRound ∧ s.scores.length ≤ s.currentRound ∧
      s.currentRound ≤ s.scores.length + 1 ∧
      (s.scores = [] → s.currentRound = 1 ∧ (rowsToRender s).length = 1) := by
  have hinv : 1 ≤ s.currentRound ∧ s.scores.length ≤ s.currentRound ∧
      s.currentRound ≤ s.scores.length + 1 := by
    induction h with
    | initial => decide
    | next a _ ha hstep ih => exact step_roundTrack Number _ _ a ha hstep ih
  refine ⟨hinv.1, hinv.2.1, hinv.2.2, fun hempty => ?_⟩
  have hone : s.currentRound = 1 := by
    have h2 := hinv.2.2
    rw [hempty, List.length_nil] at h2
    omega
  refine ⟨hone, ?_⟩
  rw [length_rowsToRender, hempty, List.length_nil, hone]
  rfl

/-! ## The totals after AddRound and after RemovePlayer -/

theorem specCell_zeros (n p : Nat) : specCell (.val (zeros n)) p = 0 := by
  simp only [specCell, zeros, List.getElem?_replicate]
  by_cases hp : p < n
  · rw [if_pos hp]
  · rw [if_neg hp]

theorem specCell_spread (a : JSArray (JSArray ℚ)) (p : Nat) :
    (a.spread.map fun round => specCell round p) = a.map fun round => specCell round p := by
  unfold JSArray.spread
  rw [List.map_map]
  apply List.map_congr_left
  intro round _
  cases round <;> rfl

theorem columnSum_placeholder (s : State) (p : Nat) :
    ((placeholderRows s).map fun round => specCell round p).sum = 0 := by
  unfold placeholderRows
  rw [List.map_replicate, specCell_zeros, List.sum_replicate, smul_zero]

theorem columnSum_handleAddRound (s : State) (p : Nat) :
    columnSum (handleAddRound s) p = columnSum s p := by
  unfold handleAddRound
  split
  · rfl
  · unfold columnSum
    have hafter : rowsToRender { s with
        scores := s.scores.spread ++ [.val (zeros s.players.length)],
        currentRound := s.currentRound + 1 }
        = s.scores.spread ++ [.val (zeros s.players.length)] := by
      simp [rowsToRender]
    rw [hafter, List.map_append, List.sum_append, specCell_spread, List.map_singleton,
      List.sum_singleton, specCell_zeros, add_zero]
    unfold rowsToRender
    split
    · rfl
    · rename_i hempty
      have hnil : s.scores = [] := by
        cases hsc : s.scores with
        | nil => rfl
        | cons x xs => rw [hsc] at hempty; simp at hempty
      rw [columnSum_placeholder, hnil]
      rfl

theorem getD_eraseIdx (r : List ℚ) (i p : Nat) :
    (r.eraseIdx i).getD p 0 = r.getD (if p < i then p else p + 1) 0 := by
  rw [List.getD_eq_getElem?_getD, List.getD_eq_getElem?_getD, List.getElem?_eraseIdx]
  split <;> rfl

theorem plainColumnSum_eraseIdx (rows : List (List ℚ)) (i p : Nat) :
    plainColumnSum (rows.map fun r => r.eraseIdx i) p
      = plainColumnSum rows (if p < i then p else p + 1) := by
  unfold plainColumnSum
  rw [List.map_map]
  congr 1
  apply List.map_congr_left
  intro r _
  exact getD_eraseIdx r i p

theorem shownRows_eraseIdx (rows : List (List ℚ)) (players : List String)
    (currentRound i : Nat) (hi : i < players.length) :
    shownRows (rows.map fun r => r.eraseIdx i) (players.eraseIdx i) currentRound
      = (shownRows rows players currentRound).map fun r => r.eraseIdx i := by
  unfold shownRows
  rw [List.length_map]
  split
  · rfl
  · rw [List.map_replicate, List.eraseIdx_replicate, if_pos hi, List.length_eraseIdx, if_pos hi]

theorem range_map_eraseIdx (g : Nat → ℚ) (n i : Nat) (hi : i < n) :
    (List.range (n - 1)).map (fun p => g (if p < i then p else p + 1))
      = ((List.range n).map g).eraseIdx i := by
  apply List.ext_getElem?
  intro j
  rw [List.getElem?_eraseIdx, List.getElem?_map, List.getElem?_map, List.getElem?_map]
  by_cases hj : j < n - 1
  · rw [List.getElem?_range hj]
    by_cases hji : j < i
    · rw [if_pos hji, List.getElem?_range (by omega)]
      simp [hji]
    · rw [if_neg hji, List.getElem?_range (by omega)]
      simp [hji]
  · have hnone : (List.range (n - 1))[j]? = none :=
      List.getElem?_eq_none (by rw [List.length_range]; omega)
    have hnone' : (List.range n)[j + 1]? = none :=
      List.getElem?_eq_none (by rw [List.length_range]; omega)
    rw [hnone, if_neg (by omega), hnone']
    rfl

/-- C18, AddRound preserves the totals: in every state (the row-width invariant is not even
needed) `totals` after AddRound equals `totals` before, whether `scores` was empty (the
placeholder rows are replaced by one stored row of zeros) or not (a row of zeros is
appended), and also when there is no player and AddRound does nothing. -/
theorem totals_handleAddRound (s : State) : totals (handleAddRound s) = totals s := by
  rw [totals_eq_specTotals, totals_eq_specTotals]
  unfold specTotals
  rw [handleAddRound_players]
  apply List.map_congr_left
  intro p _
  exact columnSum_handleAddRound s p

/-- C19, RemovePlayer commutes with the totals: in a state satisfying the row-width invariant
and for an index `0 <= index < players.length`, `totals` after RemovePlayer is `totals`
before with the entry at that position removed: every remaining player keeps their own
total. -/
theorem totals_handleRemovePlayer (s : State) (index : Int) (hw : RowWidth s)
    (h0 : 0 ≤ index) (h1 : index < s.players.length) :
    ∃ s', handleRemovePlayer s index = some s' ∧
      totals s' = (totals s).eraseIdx index.toNat := by
  obtain ⟨playerName, players, scores, currentRound⟩ := s
  obtain ⟨rows, hs, _⟩ := hw
  simp only at hs h1
  subst hs
  obtain ⟨i, rfl⟩ := Int.eq_ofNat_of_zero_le h0
  have hi : i < players.length := by exact_mod_cast h1
  refine ⟨_, handleRemovePlayer_dense playerName players rows currentRound i, ?_⟩
  rw [Int.toNat_ofNat, totals_dense, totals_dense, shownRows_eraseIdx _ _ _ _ hi,
    List.length_eraseIdx, if_pos hi,
    ← range_map_eraseIdx (fun p => plainColumnSum (shownRows rows players currentRound) p) _ _ hi]
  apply List.map_congr_left
  intro p _
  exact plainColumnSum_eraseIdx _ i p

/-! ## The values of the stored cells -/

theorem cell_dense (playerName : String) (players : List String) (rows : List (List ℚ))
    (currentRound : Nat) (roundIdx playerIdx : Nat) :
    State.cell ⟨playerName, players, dense rows, currentRound⟩ roundIdx playerIdx
      = cellOf rows roundIdx playerIdx := by
  simp only [State.cell, cellOf]
  rw [dense_eq, get?_val, List.getElem?_map]
  cases rows[roundIdx]? with
  | none => rfl
  | some row => exact get?_val row playerIdx

theorem shownRows_cells (P : ℚ → Prop) (h0 : P 0) (rows : List (List ℚ))
    (players : List String) (currentRound : Nat) (hcells : ∀ r ∈ rows, ∀ q ∈ r, P q) :
    ∀ r ∈ shownRows rows players currentRound, ∀ q ∈ r, P q := by
  intro r hr q hq
  unfold shownRows at hr
  split at hr
  · exact hcells r hr q hq
  · rw [List.eq_of_mem_replicate hr] at hq
    rw [List.eq_of_mem_replicate hq]
    exact h0

theorem writeCell_cells (P : ℚ → Prop) (rows : List (List ℚ)) (roundIdx playerIdx : Nat)
    (v : ℚ) (hv : P v) (hcells : ∀ r ∈ rows, ∀ q ∈ r, P q) :
    ∀ r ∈ writeCell rows roundIdx playerIdx v, ∀ q ∈ r, P q := by
  intro r hr q hq
  rcases List.mem_or_eq_of_mem_set hr with h | h
  · exact hcells r h q hq
  · rw [h] at hq
    rcases List.mem_or_eq_of_mem_set hq with hq | hq
    · rw [List.getD_eq_getElem?_getD] at hq
      cases hget : rows[roundIdx]? with
      | none => rw [hget] at hq; cases hq
      | some row =>
        rw [hget] at hq
        exact hcells row (List.getElem?_mem hget) q hq
    · rw [hq]
      exact hv

theorem step_cellsSatisfy (Number : String → JSNumber) (P : ℚ → Prop) (h0 : P 0)
    (s : State) (a : Action) (hc : CellsSatisfy P s) (ha : InGrid s a)
    (hv : ∀ roundIdx playerIdx value, a = .updateScore roundIdx playerIdx value →
      P (Number value).finiteOrZero) :
    ∃ s', step Number s a = some s' ∧ CellsSatisfy P s' := by
  obtain ⟨playerName, players, scores, currentRound⟩ := s
  obtain ⟨rows, hs, hwidth, hcells⟩ := hc
  simp only at hs hwidth
  subst hs
  cases a with
  | addPlayer name =>
    by_cases h : trim name = "" ∨ 4 ≤ players.length
    · exact ⟨_, handleAddPlayer_reject _ h, rows, rfl, hwidth, hcells⟩
    · have hname : trim name ≠ "" := fun hn => h (Or.inl hn)
      have hlen : players.length < 4 := by
        rcases Nat.lt_or_ge players.length 4 with hl | hl
        · exact hl
        · exact absurd (Or.inr hl) h
      refine ⟨_, handleAddPlayer_dense name players rows currentRound hname hlen, _, rfl,
        ?_, ?_⟩
      · intro r hr
        obtain ⟨r0, hr0, rfl⟩ := List.mem_map.mp hr
        simp [hwidth r0 hr0]
      · intro r hr q hq
        obtain ⟨r0, hr0, rfl⟩ := List.mem_map.mp hr
        rcases List.mem_append.mp hq with hq | hq
        · exact hcells r0 hr0 q hq
        · rw [List.mem_singleton.mp hq]
          exact h0
  | removePlayer index =>
    cases index with
    | ofNat i =>
      refine ⟨_, handleRemovePlayer_dense playerName players rows currentRound i, _, rfl,
        eraseIdx_width rows players i hwidth, ?_⟩
      intro r hr q hq
      obtain ⟨r0, hr0, rfl⟩ := List.mem_map.mp hr
      exact hcells r0 hr0 q (List.mem_of_mem_eraseIdx hq)
    | negSucc i =>
      exact ⟨_, handleRemovePlayer_outside playerName players rows currentRound _ hwidth
        (Or.inl (Int.negSucc_lt_zero i)), rows, rfl, hwidth, hcells⟩
  | addRound =>
    by_cases h : players = []
    · refine ⟨_, rfl, ?_⟩
      rw [handleAddRound_noPlayers _ h]
      exact ⟨rows, rfl, hwidth, hcells⟩
    · refine ⟨_, rfl, ?_⟩
      rw [handleAddRound_dense playerName players rows currentRound h]
      refine ⟨_, rfl, ?_, ?_⟩
      · intro r hr
        rcases List.mem_append.mp hr with hr | hr
        · exact hwidth r hr
        · rw [List.mem_singleton.mp hr, List.length_replicate]
      · intro r hr q hq
        rcases List.mem_append.mp hr with hr | hr
        · exact hcells r hr q hq
        · rw [List.mem_singleton.mp hr] at hq
          rw [List.eq_of_mem_replicate hq]
          exact h0
  | reset =>
    refine ⟨_, rfl, [], rfl, ?_, ?_⟩
    · intro r hr
      cases hr
    · intro r hr
      cases hr
  | updateScore roundIdx playerIdx value =>
    obtain ⟨hr, hp⟩ := ha
    rw [rowsToRender_dense, length_dense] at hr
    simp only at hp
    have hshown := shownRows_width rows players currentRound hwidth
    have hrow : ((shownRows rows players currentRound).getD roundIdx []).length
        = players.length := by
      rw [List.getD_eq_getElem?_getD, List.getElem?_eq_getElem hr]
      exact hshown _ (List.getElem_mem hr)
    refine ⟨_, updateScore_dense_inside Number playerName players rows currentRound roundIdx
      playerIdx value hr (by rw [hrow]; exact hp), _, rfl, ?_, ?_⟩
    · exact writeCell_width _ _ _ _ _ hshown
    · exact writeCell_cells P _ _ _ _ (hv roundIdx playerIdx value rfl)
        (shownRows_cells P h0 rows players currentRound hcells)

theorem integerCells_of_cellsSatisfy (s : State)
    (hc : CellsSatisfy (fun q => ∃ z : Int, q = z) s) : IntegerCells s := by
  obtain ⟨playerName, players, scores, currentRound⟩ := s
  obtain ⟨rows, hs, _, hcells⟩ := hc
  simp only at hs
  subst hs
  intro roundIdx playerIdx q hq
  rw [cell_dense] at hq
  unfold cellOf at hq
  cases hrow : rows[roundIdx]? with
  | none => rw [hrow] at hq; cases hq
  | some row =>
    rw [hrow, Option.some_bind] at hq
    exact hcells row (List.getElem?_mem hrow) q (List.getElem?_mem hq)

/-- C15 as stated fails: the state with the single score 1.5, reached from the initial state
by AddPlayer("Ahmed") and the in-grid UpdateScore(0, 0, "1.5"), holds a cell that is not an
integer, so not every reachable state has integer cells. -/
theorem integerCells_counterexample :
    ¬ ∀ s : State, Reachable jsNumber InGrid s → IntegerCells s := by
  intro hall
  obtain ⟨z, hz⟩ := hall _ reachable_oneAndHalf 0 0 (3 / 2) (by rw [cell_dense]; rfl)
  have h2 : (3 : ℚ) = 2 * (z : ℚ) := by rw [← hz]; norm_num
  have h3 : (3 : Int) = 2 * z := by exact_mod_cast h2
  omega

/-- C15, amended: in every state reached from the initial state by AddPlayer, RemovePlayer,
AddRound, Reset and in-grid UpdateScore calls whose raw text parses to an integer or to no
finite number, every cell of every row of `scores` is an integer. -/
theorem integerCells_of_reachable (Number : String → JSNumber) (s : State)
    (h : Reachable Number (InGridInteger Number) s) : IntegerCells s := by
  apply integerCells_of_cellsSatisfy
  induction h with
  | initial => exact ⟨[], rfl, (fun r hr => by cases hr), (fun r hr => by cases hr)⟩
  | @next s0 s1 a _ ha hstep ih =>
    have hgrid : InGrid s0 a := by
      cases a with
      | updateScore roundIdx playerIdx value => exact ha.1
      | addPlayer name => trivial
      | removePlayer index => trivial
      | addRound => trivial
      | reset => trivial
    have hv : ∀ roundIdx playerIdx value, a = .updateScore roundIdx playerIdx value →
        ∃ z : Int, (Number value).finiteOrZero = z := by
      intro roundIdx playerIdx value ha'
      subst ha'
      cases hnum : Number value with
      | finite q => exact ha.2 q hnum
      | nan => exact ⟨0, by simp [JSNumber.finiteOrZero]⟩
      | infinity negative => exact ⟨0, by simp [JSNumber.finiteOrZero]⟩
    obtain ⟨s'', h1, h2⟩ := step_cellsSatisfy Number _ ⟨0, by simp⟩ s0 a ih hgrid hv
    rw [hstep] at h1
    cases h1
    exact h2

theorem integerCells_of_reachable_witness :
    IntegerCells ⟨"", ["Ahmed", "Sara"], dense [[5, 0]], 1⟩ :=
  integerCells_of_reachable jsNumber _ reachable_integer

theorem totalClass_spec_witness :
    (totalClass ⟨"", ["Ahmed", "Sara"], dense [[5, 0], [1, 2]], 2⟩ 2 = "text-green-600"
      ↔ (2 : ℚ) ≠ maxScore ⟨"", ["Ahmed", "Sara"], dense [[5, 0], [1, 2]], 2⟩ ∧
        (2 : ℚ) = minScore ⟨"", ["Ahmed", "Sara"], dense [[5, 0], [1, 2]], 2⟩) :=
  (totalClass_spec ⟨"", ["Ahmed", "Sara"], dense [[5, 0], [1, 2]], 2⟩ 2 (by decide)
    (by
      rw [totals_dense]
      norm_num [shownRows, plainColumnSum, List.range_succ])).2.1

theorem roundTrack_of_reachable_witness :
    1 ≤ 2 ∧ (dense [[0, 0]]).length ≤ 2 ∧ 2 ≤ (dense [[0, 0]]).length + 1 ∧
      (dense [[0, 0]] = [] →
        (2 : Nat) = 1 ∧ (rowsToRender ⟨"", ["Ahmed", "Sara"], dense [[0, 0]], 2⟩).length = 1) :=
  roundTrack_of_reachable jsNumber ⟨"", ["Ahmed", "Sara"], dense [[0, 0]], 2⟩
    reachable_firstRound

theorem totals_handleRemovePlayer_witness :
    ∃ s', handleRemovePlayer ⟨"", ["Ahmed", "Sara", "Omar"], dense [[5, 7, 9], [1, 2, 3]], 2⟩ 1
        = some s' ∧
      totals s'
        = (totals ⟨"", ["Ahmed", "Sara", "Omar"], dense [[5, 7, 9], [1, 2, 3]], 2⟩).eraseIdx 1 :=
  totals_handleRemovePlayer ⟨"", ["Ahmed", "Sara", "Omar"], dense [[5, 7, 9], [1, 2, 3]], 2⟩ 1
    ⟨[[5, 7, 9], [1, 2, 3]], rfl, by decide⟩ (by decide) (by decide)

/-! ## Rounding to a double -/

theorem log_two_eq (a : ℚ) (L : Int) (h1 : (2 : ℚ) ^ L ≤ a) (h2 : a < (2 : ℚ) ^ (L + 1)) :
    Int.log 2 a = L := by
  have ha : 0 < a := lt_of_lt_of_le (zpow_pos (by norm_num) L) h1
  have hle : L ≤ Int.log 2 a := by
    apply (Int.zpow_le_iff_le_log (by norm_num) ha).mp
    exact_mod_cast h1
  have hlt : Int.log 2 a < L + 1 := by
    apply (Int.lt_zpow_iff_log_lt (by norm_num) ha).mp
    exact_mod_cast h2
  omega

theorem roundHalfEven_intCast (m : Int) : roundHalfEven (m : ℚ) = m := by
  simp [roundHalfEven]

theorem roundHalfEven_tie (f : Int) (hf : f % 2 = 0) :
    roundHalfEven ((f : ℚ) + 1 / 2) = f := by
  have hfloor : ⌊(f : ℚ) + 1 / 2⌋ = f := by
    rw [Int.floor_int_add]
    have hhalf : ⌊(1 / 2 : ℚ)⌋ = 0 := by
      rw [Int.floor_eq_zero_iff]
      constructor <;> norm_num
    rw [hhalf, add_zero]
  unfold roundHalfEven
  rw [hfloor]
  have hfrac : (f : ℚ) + 1 / 2 - f = 1 / 2 := by ring
  rw [hfrac, if_neg (lt_irrefl _), if_neg (lt_irrefl _), if_pos hf]

theorem roundDouble_eq (q : ℚ) (e m : Int) (hq : q ≠ 0)
    (he : max (Int.log 2 |q| - 52) (-1074) = e)
    (hm : roundHalfEven (q / (2 : ℚ) ^ e) = m)
    (hfin : |(m : ℚ)| * (2 : ℚ) ^ e < (2 : ℚ) ^ (1024 : Int)) :
    roundDouble q = .finite ((m : ℚ) * (2 : ℚ) ^ e) := by
  unfold roundDouble
  rw [if_neg hq]
  simp only [he, hm]
  rw [if_neg (not_le.mpr hfin)]

theorem roundDouble_of_mul (q : ℚ) (e m : Int) (hq : q ≠ 0)
    (he : max (Int.log 2 |q| - 52) (-1074) = e) (hqm : q = (m : ℚ) * (2 : ℚ) ^ e)
    (hfin : |q| < (2 : ℚ) ^ (1024 : Int)) : roundDouble q = .finite q := by
  have hpos : (0 : ℚ) < (2 : ℚ) ^ e := zpow_pos (by norm_num) e
  have hdiv : q / (2 : ℚ) ^ e = (m : ℚ) := by
    rw [hqm]
    field_simp
  have habs : |(m : ℚ)| * (2 : ℚ) ^ e = |q| := by
    rw [hqm, abs_mul, abs_of_pos hpos]
  have h := roundDouble_eq q e m hq he (by rw [hdiv]; exact roundHalfEven_intCast m)
    (by rw [habs]; exact hfin)
  rw [h, ← hqm]

theorem roundDouble_intCast (z : Int) (hz : |z| ≤ 2 ^ 53) :
    roundDouble (z : ℚ) = .finite (z : ℚ) := by
  by_cases h0 : z = 0
  · subst h0
    simp [roundDouble]
  have hq : (z : ℚ) ≠ 0 := by exact_mod_cast h0
  have habs : |(z : ℚ)| = ((z.natAbs : ℕ) : ℚ) := by
    rw [Nat.cast_natAbs, Int.cast_abs]
  have hn1 : z.natAbs ≠ 0 := Int.natAbs_ne_zero.mpr h0
  have hn2 : z.natAbs ≤ 2 ^ 53 := by
    have hcast : ((z.natAbs : ℕ) : Int) ≤ 2 ^ 53 := by rw [← Int.abs_eq_natAbs]; exact hz
    exact_mod_cast hcast
  have hlog : Int.log 2 |(z : ℚ)| = (Nat.log 2 z.natAbs : Int) := by
    rw [habs, Int.log_natCast]
  have hL1 : 2 ^ Nat.log 2 z.natAbs ≤ z.natAbs := Nat.pow_log_le_self 2 hn1
  have hL53 : Nat.log 2 z.natAbs ≤ 53 := by
    by_contra hcon
    have h54 : 2 ^ 54 ≤ 2 ^ Nat.log 2 z.natAbs :=
      Nat.pow_le_pow_right (by norm_num) (by omega)
    omega
  have hfin : |(z : ℚ)| < (2 : ℚ) ^ (1024 : Int) := by
    rw [habs]
    have h1 : ((z.natAbs : ℕ) : ℚ) ≤ 2 ^ 53 := by exact_mod_cast hn2
    have h2 : ((2 : ℚ) ^ 53) < (2 : ℚ) ^ (1024 : Int) := by norm_num
    exact lt_of_le_of_lt h1 h2
  have he : max (Int.log 2 |(z : ℚ)| - 52) (-1074) = (Nat.log 2 z.natAbs : Int) - 52 := by
    rw [hlog]
    omega
  rcases Nat.lt_or_ge (Nat.log 2 z.natAbs) 53 with hlt | hge
  · obtain ⟨k, hk⟩ : ∃ k : ℕ, Nat.log 2 z.natAbs + k = 52 :=
      ⟨52 - Nat.log 2 z.natAbs, by omega⟩
    have hexp : ((Nat.log 2 z.natAbs : Int) - 52) = -(k : Int) := by omega
    refine roundDouble_of_mul (z : ℚ) _ (z * 2 ^ k) hq he ?_ hfin
    rw [hexp, zpow_neg, zpow_natCast]
    push_cast
    field_simp
  · have hL : Nat.log 2 z.natAbs = 53 := by omega
    have hn : z.natAbs = 2 ^ 53 := by
      rw [hL] at hL1
      omega
    have hexp : ((Nat.log 2 z.natAbs : Int) - 52) = 1 := by omega
    rcases Int.natAbs_eq z with hzz | hzz
    · refine roundDouble_of_mul (z : ℚ) _ (2 ^ 52) hq he ?_ hfin
      rw [hexp, hzz, hn]
      norm_num
    · refine roundDouble_of_mul (z : ℚ) _ (-2 ^ 52) hq he ?_ hfin
      rw [hexp, hzz, hn]
      norm_num

theorem roundDouble_two_pow_53_add_one :
    roundDouble ((2 : ℚ) ^ 53 + 1) = .finite ((2 : ℚ) ^ 53) := by
  have hlog : Int.log 2 |(2 : ℚ) ^ 53 + 1| = 53 := by
    apply log_two_eq <;> norm_num [abs_of_pos]
  have h := roundDouble_eq ((2 : ℚ) ^ 53 + 1) 1 (2 ^ 52) (by norm_num)
    (by rw [hlog]; norm_num)
    (by
      have hx : ((2 : ℚ) ^ 53 + 1) / (2 : ℚ) ^ (1 : Int) = ((2 ^ 52 : Int) : ℚ) + 1 / 2 := by
        norm_num
      rw [hx]
      exact roundHalfEven_tie (2 ^ 52) (by norm_num))
    (by norm_num)
  rw [h]
  norm_num

/-! ## The totals with the addition of the language -/

theorem reduce_eq_foldl {α β : Type} (f : β → Option α → β) (init : β) (a : JSArray α) :
    JSArray.reduce f init a
      = (a.filter fun round => !round.isHole).foldl (fun acc round => f acc round.value?)
          init := by
  induction a generalizing init with
  | nil => rfl
  | cons x xs ih =>
    cases x with
    | hole => simpa [JSArray.reduce, Slot.isHole] using ih init
    | undef => simpa [JSArray.reduce, Slot.isHole] using ih (f init none)
    | val v => simpa [JSArray.reduce, Slot.isHole, Slot.value?] using ih (f init (some v))

theorem totalsWith_eq_range (add : JSNumber → JSNumber → JSNumber) (s : State) :
    totalsWith add s = (List.range s.players.length).map fun p => columnSumWith add s p := by
  unfold totalsWith columnSumWith renderedRows
  rw [mapWithIndex_eq_range', List.range_eq_range']
  apply List.map_congr_left
  intro p _
  rw [reduce_eq_foldl]
  simp only [cellOrZero_value?]

theorem renderedRows_dense (s : State) (rows : List (List ℚ))
    (h : rowsToRender s = dense rows) : renderedRows s = dense rows := by
  unfold renderedRows
  rw [h, dense]
  apply List.filter_eq_self.mpr
  intro round hround
  obtain ⟨r, _, rfl⟩ := List.mem_map.mp hround
  rfl

theorem columnSumWith_dense (add : JSNumber → JSNumber → JSNumber) (s : State)
    (rows : List (List ℚ)) (p : Nat) (h : rowsToRender s = dense rows) :
    columnSumWith add s p
      = (columnCells rows p).foldl (fun sum c => add sum (.finite c)) (.finite 0) := by
  unfold columnSumWith columnCells
  rw [renderedRows_dense s rows h, dense, List.foldl_map, List.foldl_map]
  simp only [specCell_dense]

theorem columnSum_of_dense (s : State) (rows : List (List ℚ)) (p : Nat)
    (h : rowsToRender s = dense rows) : columnSum s p = (columnCells rows p).sum := by
  unfold columnSum columnCells
  rw [h, dense, List.map_map]
  congr 1
  apply List.map_congr_left
  intro r _
  exact specCell_dense r p

theorem foldl_add_exact (add : JSNumber → JSNumber → JSNumber) (cells : List ℚ) (acc : ℚ)
    (h : ∀ k, k < cells.length →
      add (.finite (acc + (cells.take k).sum)) (.finite (cells.getD k 0))
        = .finite (acc + (cells.take k).sum + cells.getD k 0)) :
    cells.foldl (fun sum c => add sum (.finite c)) (.finite acc) = .finite (acc + cells.sum) := by
  induction cells generalizing acc with
  | nil => simp
  | cons c cs ih =>
    have h0 := h 0 (by simp)
    simp only [List.take_zero, List.sum_nil, add_zero, List.getD_cons_zero] at h0
    rw [List.foldl_cons, h0, ih (acc + c), List.sum_cons, add_assoc]
    intro k hk
    have hk' := h (k + 1) (by simpa using hk)
    simp only [List.take_succ_cons, List.sum_cons, List.getD_cons_succ] at hk'
    rw [add_assoc acc c]
    exact hk'

theorem exactAlong_of_integerSums (cells : List ℚ) (h : IntegerSums cells) :
    ExactAlong doubleAdd cells := by
  intro k hk
  obtain ⟨z, hz, hbound⟩ := h (k + 1) hk
  have hcell : cells.getD k 0 = cells[k] := by
    rw [List.getD_eq_getElem?_getD, List.getElem?_eq_getElem hk]
    rfl
  rw [List.sum_take_succ cells k hk, ← hcell] at hz
  show roundDouble ((cells.take k).sum + cells.getD k 0) = _
  rw [hz]
  exact roundDouble_intCast z hbound


/-! ## A column whose exact sum is not a double -/

theorem jsNumber_two_pow_53 : jsNumber "9007199254740992" = .finite (2 ^ 53) := by
  simp [jsNumber, trim, isWhiteSpace, readDecimal, readUnsignedDecimal, splitAtFirst,
    readDigits, digitValue?, ofValue]
  norm_num

theorem jsNumber_one : jsNumber "1" = .finite 1 := by
  simp [jsNumber, trim, isWhiteSpace, readDecimal, readUnsignedDecimal, splitAtFirst,
    readDigits, digitValue?, ofValue]
  norm_num

theorem reachable_bigScore :
    Reachable jsNumber InGrid ⟨"", ["Ahmed"], dense [[2 ^ 53], [1], [1]], 3⟩ := by
  have h0 : Reachable jsNumber InGrid State.initial := Reachable.initial
  have h1 : Reachable jsNumber InGrid ⟨"", ["Ahmed"], [], 1⟩ :=
    Reachable.next (.addPlayer "Ahmed") h0 trivial (by decide)
  have h2 : Reachable jsNumber InGrid ⟨"", ["Ahmed"], dense [[2 ^ 53]], 1⟩ := by
    refine Reachable.next (.updateScore 0 0 "9007199254740992") h1
      (show _ ∧ _ from ⟨by decide, by decide⟩) ?_
    have h := updateScore_dense_inside jsNumber "" ["Ahmed"] [] 1 0 0 "9007199254740992"
      (by decide) (by decide)
    rw [jsNumber_two_pow_53] at h
    exact h
  have h3 : Reachable jsNumber InGrid ⟨"", ["Ahmed"], dense [[2 ^ 53], [0]], 2⟩ :=
    Reachable.next .addRound h2 trivial (by rfl)
  have h4 : Reachable jsNumber InGrid ⟨"", ["Ahmed"], dense [[2 ^ 53], [1]], 2⟩ := by
    refine Reachable.next (.updateScore 1 0 "1") h3
      (show _ ∧ _ from ⟨by decide, by decide⟩) ?_
    have h := updateScore_dense_inside jsNumber "" ["Ahmed"] [[2 ^ 53], [0]] 2 1 0 "1"
      (by decide) (by decide)
    rw [jsNumber_one] at h
    exact h
  have h5 : Reachable jsNumber InGrid ⟨"", ["Ahmed"], dense [[2 ^ 53], [1], [0]], 3⟩ :=
    Reachable.next .addRound h4 trivial (by rfl)
  refine Reachable.next (.updateScore 2 0 "1") h5
    (show _ ∧ _ from ⟨by decide, by decide⟩) ?_
  have h := updateScore_dense_inside jsNumber "" ["Ahmed"] [[2 ^ 53], [1], [0]] 3 2 0 "1"
    (by decide) (by decide)
  rw [jsNumber_one] at h
  exact h

theorem roundDouble_two_pow_53 : roundDouble ((2 : ℚ) ^ 53) = .finite ((2 : ℚ) ^ 53) := by
  have h := roundDouble_intCast (2 ^ 53) (by norm_num)
  simpa using h

theorem rowsToRender_bigScore :
    rowsToRender ⟨"", ["Ahmed"], dense [[2 ^ 53], [1], [1]], 3⟩
      = dense [[2 ^ 53], [1], [1]] := by
  rw [rowsToRender_dense]
  simp [shownRows]

theorem doubleAdd_finite (a b : ℚ) :
    doubleAdd (.finite a) (.finite b) = roundDouble (a + b) := rfl

theorem foldl_bigScore :
    ([(2 : ℚ) ^ 53, 1, 1]).foldl (fun sum c => doubleAdd sum (.finite c)) (.finite 0)
      = .finite (2 ^ 53) := by
  rw [List.foldl_cons, List.foldl_cons, List.foldl_cons, List.foldl_nil,
    doubleAdd_finite, zero_add, roundDouble_two_pow_53, doubleAdd_finite,
    roundDouble_two_pow_53_add_one, doubleAdd_finite, roundDouble_two_pow_53_add_one]

theorem columnCells_bigScore :
    columnCells [[2 ^ 53], [1], [1]] 0 = [(2 : ℚ) ^ 53, 1, 1] := by
  simp [columnCells]

theorem columnSumWith_bigScore :
    columnSumWith doubleAdd ⟨"", ["Ahmed"], dense [[2 ^ 53], [1], [1]], 3⟩ 0
      = .finite (2 ^ 53) := by
  rw [columnSumWith_dense doubleAdd _ [[2 ^ 53], [1], [1]] 0 rowsToRender_bigScore,
    columnCells_bigScore, foldl_bigScore]

/-- C12 as stated fails: in the state with the one player "Ahmed" and the scores
`[[2 ^ 53], [1], [1]]`, reached from the initial state by in-grid calls, the total of the
column computed with the additions of the language is `2 ^ 53` (each `2 ^ 53 + 1` is a tie
and rounds to the even double `2 ^ 53`), while the sum of the cells is `2 ^ 53 + 2`. -/
theorem totals_exact_sum_counterexample :
    Reachable jsNumber InGrid ⟨"", ["Ahmed"], dense [[2 ^ 53], [1], [1]], 3⟩ ∧
      (totalsWith doubleAdd ⟨"", ["Ahmed"], dense [[2 ^ 53], [1], [1]], 3⟩)[0]?
        = some (.finite (2 ^ 53)) ∧
      columnSum ⟨"", ["Ahmed"], dense [[2 ^ 53], [1], [1]], 3⟩ 0 = 2 ^ 53 + 2 ∧
      (totalsWith doubleAdd ⟨"", ["Ahmed"], dense [[2 ^ 53], [1], [1]], 3⟩)[0]?
        ≠ some (.finite (columnSum ⟨"", ["Ahmed"], dense [[2 ^ 53], [1], [1]], 3⟩ 0)) := by
  have htot : (totalsWith doubleAdd ⟨"", ["Ahmed"], dense [[2 ^ 53], [1], [1]], 3⟩)[0]?
      = some (.finite (2 ^ 53)) := by
    rw [totalsWith_eq_range, List.getElem?_map, List.getElem?_range (by decide)]
    exact congrArg some columnSumWith_bigScore
  have hsum : columnSum ⟨"", ["Ahmed"], dense [[2 ^ 53], [1], [1]], 3⟩ 0 = 2 ^ 53 + 2 := by
    rw [columnSum_of_dense _ [[2 ^ 53], [1], [1]] 0 rowsToRender_bigScore]
    norm_num [columnCells]
  refine ⟨reachable_bigScore, htot, hsum, ?_⟩
  rw [htot, hsum]
  intro h
  injection h with h
  injection h with h
  norm_num at h

/-! ## The totals with the arithmetic of the language -/

theorem columnSumWith_exact (add : JSNumber → JSNumber → JSNumber) (s : State)
    (rows : List (List ℚ)) (p : Nat) (h : rowsToRender s = dense rows)
    (hexact : ExactAlong add (columnCells rows p)) :
    columnSumWith add s p = .finite (columnSum s p) := by
  rw [columnSumWith_dense add s rows p h, columnSum_of_dense s rows p h]
  have hfold := foldl_add_exact add (columnCells rows p) 0 (by
    intro k hk
    rw [zero_add]
    exact hexact k hk)
  rw [zero_add] at hfold
  exact hfold

theorem sum_specCell_filter (a : JSArray (JSArray ℚ)) (p : Nat) :
    ((a.filter fun round => !round.isHole).map fun round => specCell round p).sum
      = (a.map fun round => specCell round p).sum := by
  induction a with
  | nil => rfl
  | cons x xs ih =>
    cases x with
    | hole => simpa [Slot.isHole, specCell] using ih
    | undef => simpa [Slot.isHole] using ih
    | val v => simpa [Slot.isHole] using ih

theorem foldl_exactAdd (p : Nat) (l : List (Slot (JSArray ℚ))) (acc : ℚ) :
    l.foldl (fun sum round => exactAdd sum (.finite (specCell round p))) (.finite acc)
      = .finite (acc + (l.map fun round => specCell round p).sum) := by
  induction l generalizing acc with
  | nil => simp
  | cons x xs ih =>
    rw [List.foldl_cons]
    show List.foldl _ (JSNumber.finite (acc + specCell x p)) xs = _
    rw [ih, List.map_cons, List.sum_cons, add_assoc]

theorem totalsWith_exactAdd (s : State) :
    totalsWith exactAdd s = (totals s).map JSNumber.finite := by
  rw [totalsWith_eq_range, totals_eq_specTotals, specTotals, List.map_map]
  apply List.map_congr_left
  intro p _
  simp only [Function.comp_apply, columnSumWith, columnSum, renderedRows]
  rw [foldl_exactAdd, zero_add, sum_specCell_filter]

/-- C12, amended: in every state, and for the addition `add` of the language whatever it
rounds, `totals` has exactly `players.length` entries and the entry of every player index
`p < players.length` is the sum of `row[p]` over the rendered rows taken from the first row
to the last with `add`, a missing cell counting as 0 (`columnSumWith`; on rows of numbers the
left fold of the column's cells).  It is the exact sum `columnSum` whenever no addition along
the way rounds, and in double arithmetic in particular whenever every running sum of the
column is an integer of magnitude at most `2 ^ 53`. -/
theorem totalsWith_spec (add : JSNumber → JSNumber → JSNumber) (s : State) :
    (totalsWith add s).length = s.players.length ∧
      (∀ p, p < s.players.length → (totalsWith add s)[p]? = some (columnSumWith add s p)) ∧
      (∀ (rows : List (List ℚ)) (p : Nat), rowsToRender s = dense rows →
        columnSumWith add s p
          = (columnCells rows p).foldl (fun sum c => add sum (.finite c)) (.finite 0)) ∧
      (∀ (rows : List (List ℚ)) (p : Nat), rowsToRender s = dense rows →
        ExactAlong add (columnCells rows p) →
        columnSumWith add s p = .finite (columnSum s p)) ∧
      (∀ (rows : List (List ℚ)) (p : Nat), rowsToRender s = dense rows →
        IntegerSums (columnCells rows p) →
        columnSumWith doubleAdd s p = .finite (columnSum s p)) := by
  refine ⟨?_, ?_, ?_, ?_, ?_⟩
  · rw [totalsWith_eq_range, List.length_map, List.length_range]
  · intro p hp
    rw [totalsWith_eq_range, List.getElem?_map, List.getElem?_range hp]
    rfl
  · intro rows p h
    exact columnSumWith_dense add s rows p h
  · intro rows p h hexact
    exact columnSumWith_exact add s rows p h hexact
  · intro rows p h hint
    exact columnSumWith_exact doubleAdd s rows p h (exactAlong_of_integerSums _ hint)

theorem totalsWith_spec_witness :
    (totalsWith doubleAdd ⟨"", ["Ahmed", "Sara"], dense [[5, 0], [1, 2]], 2⟩).length = 2 ∧
      columnSumWith doubleAdd ⟨"", ["Ahmed", "Sara"], dense [[5, 0], [1, 2]], 2⟩ 0
        = .finite (columnSum ⟨"", ["Ahmed", "Sara"], dense [[5, 0], [1, 2]], 2⟩ 0) :=
  ⟨(totalsWith_spec doubleAdd ⟨"", ["Ahmed", "Sara"], dense [[5, 0], [1, 2]], 2⟩).1,
    (totalsWith_spec doubleAdd ⟨"", ["Ahmed", "Sara"], dense [[5, 0], [1, 2]], 2⟩).2.2.2.2
      [[5, 0], [1, 2]] 0 (by rw [rowsToRender_dense]; simp [shownRows])
      (by
        intro k hk
        have hk2 : k ≤ 2 := hk
        interval_cases k
        · exact ⟨0, by norm_num [columnCells], by norm_num⟩
        · exact ⟨5, by norm_num [columnCells], by norm_num⟩
        · exact ⟨6, by norm_num [columnCells], by norm_num⟩)⟩
end Escro
